import Mathlib

/-!
Verification development for the antigravity2api gateway (Python sources under
`src/`).  The Python modules are shallowly embedded: pure fragments become Lean
functions, stateful fragments thread explicit state, machine I/O (HTTP, clock,
uuid, json (de)serialisation, file system) is abstracted into explicit
parameters.  Python `dict`s become association lists with Python's insertion
semantics (assignment keeps the position of an existing key, otherwise appends),
Python truthiness is modelled by an explicit `truthy` function, and `None` is
`Option.none` or `JVal.null` depending on context.  JSON numbers are modelled as
integers; none of the verified properties involve float behaviour.
-/

/-! ## JSON values

Mutual inductive so that all recursive functions below are structural and
reduce definitionally. -/

mutual
inductive JVal : Type where
  | null : JVal
  | bool : Bool → JVal
  | num : Int → JVal
  | str : String → JVal
  | arr : JArr → JVal
  | obj : JObj → JVal

inductive JArr : Type where
  | nil : JArr
  | cons : JVal → JArr → JArr

inductive JObj : Type where
  | nil : JObj
  | cons : String → JVal → JObj → JObj
end

def JArr.ofList : List JVal → JArr
  | [] => .nil
  | v :: rest => .cons v (JArr.ofList rest)

def JArr.toList : JArr → List JVal
  | .nil => []
  | .cons v rest => v :: JArr.toList rest

def JObj.ofList : List (String × JVal) → JObj
  | [] => .nil
  | (k, v) :: rest => .cons k v (JObj.ofList rest)

def JObj.toList : JObj → List (String × JVal)
  | .nil => []
  | .cons k v rest => (k, v) :: JObj.toList rest

/-- Shorthand for a JSON array literal. -/
def jA (xs : List JVal) : JVal := .arr (JArr.ofList xs)

/-- Shorthand for a JSON object literal. -/
def jO (fs : List (String × JVal)) : JVal := .obj (JObj.ofList fs)

/-- Python `d.get(k)`: value of the first binding of `k` (dict keys are
unique, so first = only). -/
def JObj.lookup : JObj → String → Option JVal
  | .nil, _ => none
  | .cons k v rest, key => if k = key then some v else JObj.lookup rest key

/-- `k in d`. -/
def JObj.hasKey (o : JObj) (key : String) : Bool :=
  (o.lookup key).isSome

/-- Python `d[k] = v`: replace in place if the key exists, else append
(insertion-order semantics of Python dicts). -/
def JObj.set : JObj → String → JVal → JObj
  | .nil, key, v => .cons key v .nil
  | .cons k w rest, key, v =>
    if k = key then .cons k v rest else .cons k w (JObj.set rest key v)

/-- Python `d.pop(k, None)`: drop the binding of `k` if present. -/
def JObj.remove : JObj → String → JObj
  | .nil, _ => .nil
  | .cons k v rest, key =>
    if k = key then rest else .cons k v (JObj.remove rest key)

def JObj.length : JObj → Nat
  | .nil => 0
  | .cons _ _ rest => 1 + JObj.length rest

def JArr.length : JArr → Nat
  | .nil => 0
  | .cons _ rest => 1 + JArr.length rest

def JArr.append : JArr → JArr → JArr
  | .nil, ys => ys
  | .cons x rest, ys => .cons x (JArr.append rest ys)

/-- Python truthiness of a JSON value. -/
def JVal.truthy : JVal → Bool
  | .null => false
  | .bool b => b
  | .num n => n ≠ 0
  | .str s => s ≠ ""
  | .arr a => match a with | .nil => false | _ => true
  | .obj o => match o with | .nil => false | _ => true

-- Structural equality test, mirroring Python `==` on JSON data.
mutual
def JVal.beq : JVal → JVal → Bool
  | .null, .null => true
  | .bool a, .bool b => a = b
  | .num a, .num b => a = b
  | .str a, .str b => a = b
  | .arr a, .arr b => JArr.beq a b
  | .obj a, .obj b => JObj.beq a b
  | _, _ => false

def JArr.beq : JArr → JArr → Bool
  | .nil, .nil => true
  | .cons x xs, .cons y ys => JVal.beq x y && JArr.beq xs ys
  | _, _ => false

def JObj.beq : JObj → JObj → Bool
  | .nil, .nil => true
  | .cons k v rest, .cons k2 v2 rest2 => k = k2 && JVal.beq v v2 && JObj.beq rest rest2
  | _, _ => false
end

/-- Python `v == "s"` where `v` may be any JSON value. -/
def JVal.isStrEq (v : Option JVal) (s : String) : Bool :=
  match v with
  | some (.str t) => t = s
  | _ => false

/-- Python `str(v)` for the scalar values that actually occur in the verified
paths (`repr`-style output for containers is approximated and never relied
on by any theorem). -/
def JVal.pyStr : JVal → String
  | .null => "None"
  | .bool true => "True"
  | .bool false => "False"
  | .num n => toString n
  | .str s => s
  | .arr _ => "[...]"
  | .obj _ => "{...}"

/-! ## String helpers (ASCII, as used by the Python code) -/

def lowerChars (cs : List Char) : List Char := cs.map Char.toLower

def strLower (s : String) : String := String.mk (lowerChars s.data)

def listStarts : List Char → List Char → Bool
  | _, [] => true
  | [], _ :: _ => false
  | c :: cs, d :: ds => c = d && listStarts cs ds

/-- Python `s.startswith(t)`. -/
def strStarts (s t : String) : Bool := listStarts s.data t.data

/-- Python `s.endswith(t)`. -/
def strEnds (s t : String) : Bool := listStarts s.data.reverse t.data.reverse

def listContainsSub (needle : List Char) : List Char → Bool
  | [] => listStarts [] needle
  | c :: cs => listStarts (c :: cs) needle || listContainsSub needle cs

/-- Python `t in s` (substring test). -/
def strContainsSub (s t : String) : Bool := listContainsSub t.data s.data

/-- Python `s.strip()`. -/
def strStrip (s : String) : String :=
  String.mk (((s.data.dropWhile Char.isWhitespace).reverse.dropWhile Char.isWhitespace).reverse)

/-! ## Token manager (`src/token_manager.py`)

`ProjectToken` is the dataclass of the `src/` variant: six persisted fields and
nothing else (in particular there is no `session_id` attribute). -/

structure ProjectToken where
  project_id : String
  refresh_token : String
  access_token : Option String := none
  expires_at : Option Int := none
  enabled : Bool := true
  disabled_reason : Option String := none

/-- Python falsiness of an `Optional[str]`. -/
def pyFalsyStr : Option String → Bool
  | none => true
  | some s => s = ""

/-- Python falsiness of an `Optional[int]`. -/
def pyFalsyInt : Option Int → Bool
  | none => true
  | some n => n = 0

/-- `TokenManager.is_token_expired`: true when `access_token` or `expires_at`
is falsy, else when `expires_at < now + 300`. -/
def is_token_expired (now : Int) (p : ProjectToken) : Bool :=
  if pyFalsyStr p.access_token || pyFalsyInt p.expires_at then true
  else p.expires_at.getD 0 < now + 300

/-- Observable behaviour of `TokenManager.refresh_access_token` with respect to
the OAuth endpoint: under the refresh mutex the method double-checks expiry and
returns the cached token without any network call when the token is not
expired; otherwise it issues the refresh POST. -/
inductive RefreshOutcome where
  | cachedShortCircuit (token : String)
  | oauthPost

def refresh_access_token (now : Int) (p : ProjectToken) : RefreshOutcome :=
  if is_token_expired now p = false then .cachedShortCircuit (p.access_token.getD "")
  else .oauthPost

/-- `TokenManager.handle_auth_error` simply delegates to
`refresh_access_token`. -/
def handle_auth_error (now : Int) (p : ProjectToken) : RefreshOutcome :=
  refresh_access_token now p

/-- Observable behaviour of `TokenManager.get_access_token`: either the cached
token is returned directly, or control enters `refresh_access_token`. -/
inductive TokenFetch where
  | cachedToken (token : String)
  | refreshCall (outcome : RefreshOutcome)

def get_access_token (now : Int) (p : ProjectToken) : TokenFetch :=
  if is_token_expired now p then .refreshCall (refresh_access_token now p)
  else .cachedToken (p.access_token.getD "")

/-- `TokenManager.save_tokens` serialises each project as exactly these six
key/value pairs (plus the surrounding `oauth_config`). -/
def saveProjectFields (p : ProjectToken) : List (String × JVal) :=
  [ ("project_id", .str p.project_id),
    ("refresh_token", .str p.refresh_token),
    ("access_token", (p.access_token.map JVal.str).getD .null),
    ("expires_at", (p.expires_at.map JVal.num).getD .null),
    ("enabled", .bool p.enabled),
    ("disabled_reason", (p.disabled_reason.map JVal.str).getD .null) ]

/-- `main.py` fetches a per-project session id with
`getattr(project, "session_id", None)`; the dataclass has no such attribute,
so the fallback is always taken. -/
def sessionIdOf (_p : ProjectToken) : Option String := none

/-! ### Round-robin selection (`TokenManager.get_next_project`) -/

structure PoolState where
  projects : List ProjectToken
  currentIndex : Nat
  currentUsageCount : Nat

def enabledAt (ps : List ProjectToken) (i : Nat) : Bool :=
  (ps[i]?.map ProjectToken.enabled).getD false

/-- First while-loop of `get_next_project`: advance the cursor, stopping at the
first enabled project; at most `fuel` failed probes (the code uses
`len(projects)`). -/
def advanceLoop (ps : List ProjectToken) : Nat → Nat → Nat
  | i, 0 => i
  | i, fuel + 1 =>
    let j := (i + 1) % ps.length
    if enabledAt ps j then j else advanceLoop ps j fuel

/-- Second while-loop of `get_next_project`: return the cursor if it points at
an enabled project, else advance; at most `fuel` probes. -/
def findLoop (ps : List ProjectToken) : Nat → Nat → Option Nat
  | _, 0 => none
  | i, fuel + 1 =>
    if enabledAt ps i then some i else findLoop ps ((i + 1) % ps.length) fuel

/-- Tail of `get_next_project` after the rotation check: run the second
while-loop from cursor `i0` with usage counter `c0`, increment the counter on
success. -/
def selectFrom (ps : List ProjectToken) (i0 c0 : Nat) :
    Except String (ProjectToken × PoolState) :=
  match findLoop ps i0 ps.length with
  | some j =>
    match ps[j]? with
    | some p => .ok (p, ⟨ps, j, c0 + 1⟩)
    | none => .error "All projects are disabled"
  | none => .error "All projects are disabled"

/-- `TokenManager.get_next_project` with `rotation_count = r`, as a function of
the pool state.  Errors carry the `ValueError` messages of the code.  When the
usage counter has reached the rotation count it is reset to `0` and the cursor
is advanced to the next enabled project before selection. -/
def get_next_project (r : Nat) (s : PoolState) : Except String (ProjectToken × PoolState) :=
  if s.projects.length = 0 then .error "No projects configured"
  else if (s.projects.filter (fun p => p.enabled)).isEmpty then
    .error "All projects are disabled"
  else if r ≤ s.currentUsageCount then
    selectFrom s.projects (advanceLoop s.projects s.currentIndex s.projects.length) 0
  else selectFrom s.projects s.currentIndex s.currentUsageCount

/-- `n` consecutive calls to `get_next_project`: the list of
(returned project, cursor after the call) pairs together with the final pool
state.  A pool error stops the run. -/
def pickRun (r : Nat) (s : PoolState) : Nat → List (ProjectToken × Nat) × PoolState
  | 0 => ([], s)
  | n + 1 =>
    match get_next_project r s with
    | .ok (p, s1) =>
      let rest := pickRun r s1 n
      ((p, s1.currentIndex) :: rest.1, rest.2)
    | .error _ => ([], s)

/-! ## Non-stream request handling (`src/main.py`, `handle_non_stream_request`)

Only the status dispatch is modelled: the upstream is a function of at most two
responses (the initial one, and the retry used when the first status is 401 or
403).  `HTTPException(status, detail)` raised inside the `try:` block of the
handler is caught by the final `except Exception` clause, which re-raises
`HTTPException(500, "Error: " + str(e))`; `str` of a starlette `HTTPException`
is `"{status}: {detail}"`. -/

structure UpstreamResponse where
  status : Nat
  body : String

structure HTTPExc where
  status : Nat
  detail : String

def strOfHTTPExc (e : HTTPExc) : String := toString e.status ++ ": " ++ e.detail

/-- Body of the `try:` block: pick the effective response (retry on 401/403),
raise `HTTPException(status, "Google API error: " + body)` on any non-200
status, succeed otherwise. -/
def handleNonStreamTryBody (first retry : UpstreamResponse) : Except HTTPExc Unit :=
  let resp := if first.status = 401 ∨ first.status = 403 then retry else first
  if resp.status ≠ 200 then
    .error ⟨resp.status, "Google API error: " ++ resp.body⟩
  else .ok ()

/-- `handle_non_stream_request` as seen by the client: the catch-all
`except Exception` wraps every exception of the `try:` body — including the
`HTTPException` meant to surface the upstream status — into a fresh
`HTTPException(500, "Error: " + str(e))`. -/
def handle_non_stream_request (first retry : UpstreamResponse) : Except HTTPExc Unit :=
  match handleNonStreamTryBody first retry with
  | .error e => .error ⟨500, "Error: " ++ strOfHTTPExc e⟩
  | .ok v => .ok v

/-! ## Lemmas about the selection loops -/

theorem enabledAt_lt {ps : List ProjectToken} {i : Nat} (h : enabledAt ps i = true) :
    i < ps.length := by
  by_contra hlt
  have : ps[i]? = none := by
    simp [List.getElem?_eq_none_iff]; omega
  simp [enabledAt, this] at h

theorem findLoop_spec (ps : List ProjectToken) :
    ∀ (d i fuel : Nat), i < ps.length → d < fuel →
      enabledAt ps ((i + d) % ps.length) = true →
      (∀ e, e < d → enabledAt ps ((i + e) % ps.length) = false) →
      findLoop ps i fuel = some ((i + d) % ps.length) := by
  intro d
  induction d with
  | zero =>
    intro i fuel hi hfuel hen _
    obtain ⟨f, rfl⟩ := Nat.exists_eq_succ_of_ne_zero (Nat.pos_iff_ne_zero.mp hfuel)
    have hmod : (i + 0) % ps.length = i := by
      simp [Nat.mod_eq_of_lt hi]
    rw [hmod] at hen ⊢
    simp [findLoop, hen]
  | succ d ih =>
    intro i fuel hi hfuel hen hmin
    obtain ⟨f, rfl⟩ : ∃ k, fuel = k + 1 := ⟨fuel - 1, by omega⟩
    have hlen : 0 < ps.length := by omega
    have h0 : enabledAt ps i = false := by
      have := hmin 0 (by omega)
      simpa [Nat.mod_eq_of_lt hi] using this
    have hi1 : (i + 1) % ps.length < ps.length := Nat.mod_lt _ hlen
    have hshift : ∀ e, ((i + 1) % ps.length + e) % ps.length = (i + (e + 1)) % ps.length := by
      intro e
      rw [Nat.mod_add_mod]
      ring_nf
    have hrec := ih ((i + 1) % ps.length) f hi1 (by omega)
      (by rw [hshift]; exact hen)
      (by intro e he; rw [hshift]; exact hmin (e + 1) (by omega))
    rw [findLoop, h0]
    rw [if_neg (by simp)]
    rw [hrec, hshift]

theorem advanceLoop_spec (ps : List ProjectToken) :
    ∀ (d i fuel : Nat), 0 < d → d ≤ fuel →
      enabledAt ps ((i + d) % ps.length) = true →
      (∀ e, 0 < e → e < d → enabledAt ps ((i + e) % ps.length) = false) →
      advanceLoop ps i fuel = (i + d) % ps.length := by
  intro d
  induction d with
  | zero => omega
  | succ d ih =>
    intro i fuel hd hfuel hen hmin
    obtain ⟨f, rfl⟩ : ∃ k, fuel = k + 1 := ⟨fuel - 1, by omega⟩
    have hshift : ∀ e, ((i + 1) % ps.length + e) % ps.length = (i + (e + 1)) % ps.length := by
      intro e
      rw [Nat.mod_add_mod]
      ring_nf
    by_cases hdz : d = 0
    · subst hdz
      have : enabledAt ps ((i + 1) % ps.length) = true := hen
      simp [advanceLoop, this]
    · have h1 : enabledAt ps ((i + 1) % ps.length) = false := by
        have := hmin 1 (by omega) (by omega)
        simpa using this
      have hrec := ih ((i + 1) % ps.length) f (by omega) (by omega)
        (by rw [hshift]; exact hen)
        (by intro e he hed; rw [hshift]; exact hmin (e + 1) (by omega) (by omega))
      rw [advanceLoop, h1]
      rw [if_neg (by simp)]
      rw [hrec, hshift]

theorem exists_min_dist (ps : List ProjectToken) {i j : Nat}
    (hi : i < ps.length) (hj : j < ps.length) (hjen : enabledAt ps j = true) :
    ∃ d, d < ps.length ∧ enabledAt ps ((i + d) % ps.length) = true ∧
      ∀ e, e < d → enabledAt ps ((i + e) % ps.length) = false := by
  have hP : ∃ d, enabledAt ps ((i + d) % ps.length) = true := by
    refine ⟨if i ≤ j then j - i else ps.length - i + j, ?_⟩
    by_cases hij : i ≤ j
    · simp only [hij, if_true]
      have : i + (j - i) = j := by omega
      rw [this, Nat.mod_eq_of_lt hj]; exact hjen
    · simp only [hij, if_false]
      have : i + (ps.length - i + j) = ps.length + j := by omega
      rw [this, Nat.add_mod_left, Nat.mod_eq_of_lt hj]; exact hjen
  classical
  refine ⟨Nat.find hP, ?_, Nat.find_spec hP, ?_⟩
  · have hbound : Nat.find hP ≤ (if i ≤ j then j - i else ps.length - i + j) := by
      apply Nat.find_min'
      by_cases hij : i ≤ j
      · simp only [hij, if_true]
        have : i + (j - i) = j := by omega
        rw [this, Nat.mod_eq_of_lt hj]; exact hjen
      · simp only [hij, if_false]
        have : i + (ps.length - i + j) = ps.length + j := by omega
        rw [this, Nat.add_mod_left, Nat.mod_eq_of_lt hj]; exact hjen
    by_cases hij : i ≤ j
    · simp only [hij, if_true] at hbound; omega
    · simp only [hij, if_false] at hbound; omega
  · intro e he
    have := Nat.find_min hP he
    simpa using this

theorem exists_min_dist_pos (ps : List ProjectToken) {i j : Nat}
    (hi : i < ps.length) (hj : j < ps.length) (hjen : enabledAt ps j = true) :
    ∃ d, 0 < d ∧ d ≤ ps.length ∧ enabledAt ps ((i + d) % ps.length) = true ∧
      ∀ e, 0 < e → e < d → enabledAt ps ((i + e) % ps.length) = false := by
  have hP : ∃ d, enabledAt ps ((i + (d + 1)) % ps.length) = true := by
    refine ⟨(if i < j then j - i else ps.length - i + j) - 1, ?_⟩
    by_cases hij : i < j
    · simp only [hij, if_true]
      have : i + (j - i - 1 + 1) = j := by omega
      rw [this, Nat.mod_eq_of_lt hj]; exact hjen
    · simp only [hij, if_false]
      have : i + (ps.length - i + j - 1 + 1) = ps.length + j := by omega
      rw [this, Nat.add_mod_left, Nat.mod_eq_of_lt hj]; exact hjen
  classical
  refine ⟨Nat.find hP + 1, by omega, ?_, Nat.find_spec hP, ?_⟩
  · have hbound : Nat.find hP ≤ (if i < j then j - i else ps.length - i + j) - 1 := by
      apply Nat.find_min'
      by_cases hij : i < j
      · simp only [hij, if_true]
        have : i + (j - i - 1 + 1) = j := by omega
        rw [this, Nat.mod_eq_of_lt hj]; exact hjen
      · simp only [hij, if_false]
        have : i + (ps.length - i + j - 1 + 1) = ps.length + j := by omega
        rw [this, Nat.add_mod_left, Nat.mod_eq_of_lt hj]; exact hjen
    by_cases hij : i < j
    · simp only [hij, if_true] at hbound; omega
    · simp only [hij, if_false] at hbound; omega
  · intro e he hed
    obtain ⟨e1, rfl⟩ := Nat.exists_eq_succ_of_ne_zero (by omega : e ≠ 0)
    have := Nat.find_min hP (m := e1) (by omega)
    simpa using this

theorem findLoop_finds (ps : List ProjectToken) {i j : Nat}
    (hi : i < ps.length) (hj : j < ps.length) (hjen : enabledAt ps j = true) :
    ∃ m, findLoop ps i ps.length = some m ∧ enabledAt ps m = true ∧ m < ps.length := by
  obtain ⟨d, hd, hen, hmin⟩ := exists_min_dist ps hi hj hjen
  exact ⟨(i + d) % ps.length, findLoop_spec ps d i ps.length hi hd hen hmin, hen,
    Nat.mod_lt _ (by omega)⟩

theorem advanceLoop_enabled (ps : List ProjectToken) {i j : Nat}
    (hi : i < ps.length) (hj : j < ps.length) (hjen : enabledAt ps j = true) :
    enabledAt ps (advanceLoop ps i ps.length) = true ∧
      advanceLoop ps i ps.length < ps.length := by
  obtain ⟨d, hd0, hdlen, hen, hmin⟩ := exists_min_dist_pos ps hi hj hjen
  rw [advanceLoop_spec ps d i ps.length hd0 hdlen hen hmin]
  exact ⟨hen, Nat.mod_lt _ (by omega)⟩

theorem exists_enabled_index_iff (ps : List ProjectToken) :
    (∃ j, j < ps.length ∧ enabledAt ps j = true) ↔ ∃ p ∈ ps, p.enabled = true := by
  constructor
  · rintro ⟨j, hj, hen⟩
    refine ⟨ps[j], List.getElem_mem hj, ?_⟩
    simpa [enabledAt, List.getElem?_eq_getElem hj] using hen
  · rintro ⟨p, hp, hen⟩
    obtain ⟨j, hj, rfl⟩ := List.getElem_of_mem hp
    exact ⟨j, hj, by simpa [enabledAt, List.getElem?_eq_getElem hj] using hen⟩

theorem filter_enabled_isEmpty_false {ps : List ProjectToken}
    (hen : ∃ p ∈ ps, p.enabled = true) :
    (ps.filter (fun p => p.enabled)).isEmpty = false := by
  obtain ⟨p, hp, hpen⟩ := hen
  have hmem : p ∈ ps.filter (fun p => p.enabled) := by
    simp [List.mem_filter, hp, hpen]
  cases hfe : (ps.filter (fun p => p.enabled)).isEmpty with
  | false => rfl
  | true =>
    rw [List.isEmpty_iff] at hfe
    rw [hfe] at hmem
    simp at hmem

theorem selectFrom_at_enabled {ps : List ProjectToken} {i0 : Nat} (c0 : Nat)
    (hi : i0 < ps.length) (hen : enabledAt ps i0 = true) :
    selectFrom ps i0 c0 = .ok (ps[i0], ⟨ps, i0, c0 + 1⟩) := by
  obtain ⟨f, hf⟩ : ∃ k, ps.length = k + 1 := ⟨ps.length - 1, by omega⟩
  rw [selectFrom, hf, findLoop, hen]
  simp [List.getElem?_eq_getElem hi]

theorem selectFrom_finds {ps : List ProjectToken} {i0 j : Nat} (c0 : Nat)
    (hi : i0 < ps.length) (hj : j < ps.length) (hjen : enabledAt ps j = true) :
    ∃ p m, ps[m]? = some p ∧ p.enabled = true ∧ m < ps.length ∧
      selectFrom ps i0 c0 = .ok (p, ⟨ps, m, c0 + 1⟩) := by
  obtain ⟨m, hfind, hen, hlt⟩ := findLoop_finds ps hi hj hjen
  have hget : ps[m]? = some ps[m] := List.getElem?_eq_getElem hlt
  refine ⟨ps[m], m, hget, ?_, hlt, ?_⟩
  · simpa [enabledAt, hget] using hen
  · rw [selectFrom, hfind]
    simp [hget]

theorem get_next_project_ok (r : Nat) (s : PoolState)
    (hidx : s.currentIndex < s.projects.length)
    (hen : ∃ j, j < s.projects.length ∧ enabledAt s.projects j = true) :
    ∃ p j, s.projects[j]? = some p ∧ p.enabled = true ∧ j < s.projects.length ∧
      get_next_project r s =
        .ok (p, ⟨s.projects, j,
          (if r ≤ s.currentUsageCount then 0 else s.currentUsageCount) + 1⟩) := by
  obtain ⟨j0, hj0, hj0en⟩ := hen
  have hne : ¬ s.projects.length = 0 := by omega
  have hfil := filter_enabled_isEmpty_false
    ((exists_enabled_index_iff s.projects).mp ⟨j0, hj0, hj0en⟩)
  by_cases hrot : r ≤ s.currentUsageCount
  · obtain ⟨hen1, hlt1⟩ := advanceLoop_enabled s.projects hidx hj0 hj0en
    have hget : s.projects[advanceLoop s.projects s.currentIndex s.projects.length]?
        = some s.projects[advanceLoop s.projects s.currentIndex s.projects.length] :=
      List.getElem?_eq_getElem hlt1
    refine ⟨_, _, hget, ?_, hlt1, ?_⟩
    · simpa [enabledAt, hget] using hen1
    · rw [get_next_project, if_neg hne, if_neg (by simp [hfil]), if_pos hrot,
        selectFrom_at_enabled 0 hlt1 hen1]
      simp [hrot]
  · obtain ⟨p, m, hget, hpen, hlt, hsel⟩ :=
      selectFrom_finds s.currentUsageCount hidx hj0 hj0en
    refine ⟨p, m, hget, hpen, hlt, ?_⟩
    rw [get_next_project, if_neg hne, if_neg (by simp [hfil]), if_neg hrot, hsel]
    simp [hrot]

/-! ## Claim theorems for the token manager -/

/-- Demonstration project used by witnesses: enabled, with a cached
unexpired token. -/
def demoProject : ProjectToken :=
  ⟨"proj-1", "refresh-1", some "cached-token", some 1300000, true, none⟩

/-- C1.  Evaluation of the code at the failing input: for a project whose
cached access token is not yet expired, `handle_auth_error` returns the cached
token via the double-check short-circuit of `refresh_access_token` and never
issues the OAuth refresh POST, contradicting the claim (and the method's own
docstring) that the refresh is forced. -/
theorem handle_auth_error_short_circuits_unexpired_token :
    handle_auth_error 1000000 demoProject = .cachedShortCircuit "cached-token" := rfl

/-- C2.  Evaluation of the code at the failing input: for an upstream 429
response, the `HTTPException(429, ...)` raised inside the handler's own `try:`
block is caught by the final `except Exception` clause and re-raised as status
500, so the client does not see the upstream status. -/
theorem handle_non_stream_upstream_status_not_forwarded :
    handle_non_stream_request ⟨429, "quota exceeded"⟩ ⟨429, "quota exceeded"⟩
      = .error ⟨500, "Error: 429: Google API error: quota exceeded"⟩ := rfl

/-- C6.  `get_next_project` fails with the no-projects error iff the pool is
empty, fails with the all-disabled error iff the pool is non-empty and no
enabled project exists, and returns a project in every other pool state (pool
states keep the cursor inside the sequence). -/
theorem get_next_project_error_characterisation (r : Nat) (s : PoolState)
    (hidx : s.projects = [] ∨ s.currentIndex < s.projects.length) :
    (get_next_project r s = .error "No projects configured" ↔ s.projects = [])
    ∧ (get_next_project r s = .error "All projects are disabled"
        ↔ (s.projects ≠ [] ∧ ∀ p ∈ s.projects, p.enabled = false))
    ∧ ((s.projects ≠ [] ∧ ∃ p ∈ s.projects, p.enabled = true)
        → ∃ pr s1, get_next_project r s = .ok (pr, s1)) := by
  by_cases hemp : s.projects = []
  · have hlen : s.projects.length = 0 := by simp [hemp]
    refine ⟨?_, ?_, ?_⟩
    · simp [get_next_project, hlen, hemp]
    · constructor
      · intro h
        rw [get_next_project, if_pos hlen] at h
        simp at h
      · rintro ⟨h, _⟩; exact absurd hemp h
    · rintro ⟨h, _⟩; exact absurd hemp h
  · have hidx2 : s.currentIndex < s.projects.length := by
      rcases hidx with h | h
      · exact absurd h hemp
      · exact h
    have hlen : ¬ s.projects.length = 0 := by
      simp [List.length_eq_zero]; exact hemp
    by_cases hall : ∀ p ∈ s.projects, p.enabled = false
    · have hfil : (s.projects.filter (fun p => p.enabled)).isEmpty = true := by
        rw [List.isEmpty_iff, List.filter_eq_nil_iff]
        intro p hp
        simp [hall p hp]
      refine ⟨?_, ?_, ?_⟩
      · rw [get_next_project, if_neg hlen, if_pos (by simp [hfil])]
        simp [hemp]
      · rw [get_next_project, if_neg hlen, if_pos (by simp [hfil])]
        exact ⟨fun _ => ⟨hemp, hall⟩, fun _ => rfl⟩
      · rintro ⟨_, p, hp, hpen⟩
        exact absurd hpen (by simp [hall p hp])
    · have hen : ∃ p ∈ s.projects, p.enabled = true := by
        push_neg at hall
        obtain ⟨p, hp, hpen⟩ := hall
        exact ⟨p, hp, by simpa using hpen⟩
      obtain ⟨p, j, hget, hpen, hj, hok⟩ :=
        get_next_project_ok r s hidx2 ((exists_enabled_index_iff s.projects).mpr hen)
      refine ⟨?_, ?_, ?_⟩
      · rw [hok]; simp [hemp]
      · rw [hok]
        constructor
        · intro h; exact absurd h (by simp)
        · rintro ⟨_, hall2⟩
          obtain ⟨q, hq, hqen⟩ := hen
          exact absurd hqen (by simp [hall2 q hq])
      · intro _
        exact ⟨p, _, hok⟩

/-- Witness for C6 at a concrete pool with one enabled project. -/
theorem get_next_project_error_characterisation_witness :
    (get_next_project 1 ⟨[demoProject], 0, 0⟩ = .error "No projects configured"
        ↔ [demoProject] = [])
    ∧ (get_next_project 1 ⟨[demoProject], 0, 0⟩ = .error "All projects are disabled"
        ↔ ([demoProject] ≠ [] ∧ ∀ p ∈ [demoProject], p.enabled = false))
    ∧ (([demoProject] ≠ [] ∧ ∃ p ∈ [demoProject], p.enabled = true)
        → ∃ pr s1, get_next_project 1 ⟨[demoProject], 0, 0⟩ = .ok (pr, s1)) :=
  get_next_project_error_characterisation 1 ⟨[demoProject], 0, 0⟩ (Or.inr (by simp))

/-- C7.  A project needs a refresh iff its cached access token is empty or its
expiry is less than 300 seconds away (absent values count as needing refresh,
matching the Python falsiness test), and `get_access_token` returns the cached
token without entering the refresh path whenever the token is not expired. -/
theorem token_expiry_characterisation (p : ProjectToken) (now : Int) (hnow : 0 ≤ now) :
    (is_token_expired now p = true
      ↔ (p.access_token.getD "" = "" ∨ p.expires_at.getD 0 < now + 300))
    ∧ (is_token_expired now p = false
        → get_access_token now p = .cachedToken (p.access_token.getD "")) := by
  constructor
  · rcases p with ⟨pid, rt, tok?, exp?, en, dr⟩
    rcases tok? with _ | tok <;> rcases exp? with _ | exp <;>
        simp [is_token_expired, pyFalsyStr, pyFalsyInt]
    · omega
    · by_cases htok : tok = "" <;> simp [htok] <;> omega
  · intro h
    rw [get_access_token, h]
    simp

/-- Witness for C7 at a concrete unexpired project. -/
theorem token_expiry_characterisation_witness :
    (is_token_expired 1000000 demoProject = true
      ↔ (demoProject.access_token.getD "" = ""
          ∨ demoProject.expires_at.getD 0 < 1000000 + 300))
    ∧ (is_token_expired 1000000 demoProject = false
        → get_access_token 1000000 demoProject
            = .cachedToken (demoProject.access_token.getD "")) :=
  token_expiry_characterisation demoProject 1000000 (by norm_num)

/-- C9 counterexample: the `ProjectToken` dataclass of `src/token_manager.py`
has no `session_id` attribute at all, so the session id that `main.py` reads
with `getattr(project, "session_id", None)` is `None` — not a non-empty string
— for a freshly loaded project. -/
theorem loaded_project_has_no_session_id :
    (sessionIdOf demoProject).isSome = false := rfl

/-- C9 as amended: no project carries a session id (the `getattr` fallback is
always taken), and the persistence writer never includes a `session_id` field
in the serialised project objects. -/
theorem session_id_never_generated_never_persisted (p : ProjectToken) :
    sessionIdOf p = none
    ∧ (JObj.ofList (saveProjectFields p)).hasKey "session_id" = false := by
  refine ⟨rfl, ?_⟩
  simp [saveProjectFields, JObj.ofList, JObj.hasKey, JObj.lookup]

/-! ## TTL + LRU caches (`src/signature_cache.py`, `src/tool_name_cache.py`)

Both modules keep `OrderedDict`s of `(value, timestamp)` entries guarded by a
lock; all operations are serialised, so they are modelled as pure state
transformers.  `OrderedDict` assignment keeps the position of an existing key,
`popitem(last=False)` removes the head (the oldest insertion). -/

structure CacheEntry where
  value : String
  ts : Int

def ENTRY_TTL_SECONDS : Int := 30 * 60

def CLEAN_INTERVAL_SECONDS : Int := 10 * 60

def MAX_REASONING_ENTRIES : Nat := 256

def MAX_TOOL_ENTRIES : Nat := 256

def MAX_TOOL_NAME_ENTRIES : Nat := 512

def odLookup : List (String × CacheEntry) → String → Option CacheEntry
  | [], _ => none
  | (k0, e0) :: rest, k => if k0 = k then some e0 else odLookup rest k

def odSet : List (String × CacheEntry) → String → CacheEntry → List (String × CacheEntry)
  | [], k, e => [(k, e)]
  | (k0, e0) :: rest, k, e =>
    if k0 = k then (k0, e) :: rest else (k0, e0) :: odSet rest k e

def odPop : List (String × CacheEntry) → String → List (String × CacheEntry)
  | [], _ => []
  | (k0, e0) :: rest, k => if k0 = k then rest else (k0, e0) :: odPop rest k

/-- `_prune_size`: drop the oldest entries while the size exceeds the bound. -/
def pruneSize (maxE : Nat) : List (String × CacheEntry) → List (String × CacheEntry)
  | [] => []
  | e :: rest =>
    if maxE < (e :: rest).length then pruneSize maxE rest else e :: rest

/-- `_prune_expired`: drop every entry with `now - ts > TTL`. -/
def pruneExpired (now : Int) (es : List (String × CacheEntry)) :
    List (String × CacheEntry) :=
  es.filter (fun kv => now - kv.2.ts ≤ ENTRY_TTL_SECONDS)

/-! ### Signature cache module state (`signature_cache.py`) -/

structure SigCacheState where
  reasoning : List (String × CacheEntry)
  tool : List (String × CacheEntry)
  lastCleanup : Int

/-- Module state at import time: empty caches, `_last_cleanup_ts = 0.0`. -/
def sigInit : SigCacheState := ⟨[], [], 0⟩

/-- `_make_key`: `f"{session_id or ''}::{model or ''}"`. -/
def sigMakeKey (sid model : Option String) : String :=
  sid.getD "" ++ "::" ++ model.getD ""

/-- `_maybe_cleanup`: sweep both maps at most every ten minutes. -/
def sigMaybeCleanup (now : Int) (st : SigCacheState) : SigCacheState :=
  if now - st.lastCleanup < CLEAN_INTERVAL_SECONDS then st
  else ⟨pruneExpired now st.reasoning, pruneExpired now st.tool, now⟩

def set_reasoning_signature (sid model sig : Option String) (now : Int)
    (st : SigCacheState) : SigCacheState :=
  if pyFalsyStr sig then st
  else
    ⟨pruneSize MAX_REASONING_ENTRIES
        (odSet (sigMaybeCleanup now st).reasoning (sigMakeKey sid model) ⟨sig.getD "", now⟩),
      (sigMaybeCleanup now st).tool, (sigMaybeCleanup now st).lastCleanup⟩

def get_reasoning_signature (sid model : Option String) (now : Int)
    (st : SigCacheState) : Option String × SigCacheState :=
  match odLookup (sigMaybeCleanup now st).reasoning (sigMakeKey sid model) with
  | none => (none, sigMaybeCleanup now st)
  | some e =>
    if ENTRY_TTL_SECONDS < now - e.ts then
      (none, ⟨odPop (sigMaybeCleanup now st).reasoning (sigMakeKey sid model),
        (sigMaybeCleanup now st).tool, (sigMaybeCleanup now st).lastCleanup⟩)
    else (some e.value, sigMaybeCleanup now st)

def set_tool_signature (sid model sig : Option String) (now : Int)
    (st : SigCacheState) : SigCacheState :=
  if pyFalsyStr sig then st
  else
    ⟨(sigMaybeCleanup now st).reasoning,
      pruneSize MAX_TOOL_ENTRIES
        (odSet (sigMaybeCleanup now st).tool (sigMakeKey sid model) ⟨sig.getD "", now⟩),
      (sigMaybeCleanup now st).lastCleanup⟩

def get_tool_signature (sid model : Option String) (now : Int)
    (st : SigCacheState) : Option String × SigCacheState :=
  match odLookup (sigMaybeCleanup now st).tool (sigMakeKey sid model) with
  | none => (none, sigMaybeCleanup now st)
  | some e =>
    if ENTRY_TTL_SECONDS < now - e.ts then
      (none, ⟨(sigMaybeCleanup now st).reasoning,
        odPop (sigMaybeCleanup now st).tool (sigMakeKey sid model),
        (sigMaybeCleanup now st).lastCleanup⟩)
    else (some e.value, sigMaybeCleanup now st)

/-! ### Tool-name cache module state (`tool_name_cache.py`) -/

structure ToolNameCacheState where
  entries : List (String × CacheEntry)
  lastCleanup : Int

def tnInit : ToolNameCacheState := ⟨[], 0⟩

/-- `_make_key`: `f"{session_id or ''}::{model or ''}::{safe_name or ''}"`. -/
def tnMakeKey (sid model safe : Option String) : String :=
  sid.getD "" ++ "::" ++ model.getD "" ++ "::" ++ safe.getD ""

def tnMaybeCleanup (now : Int) (st : ToolNameCacheState) : ToolNameCacheState :=
  if now - st.lastCleanup < CLEAN_INTERVAL_SECONDS then st
  else ⟨pruneExpired now st.entries, now⟩

def set_tool_name_mapping (sid model safe orig : Option String) (now : Int)
    (st : ToolNameCacheState) : ToolNameCacheState :=
  if pyFalsyStr safe || pyFalsyStr orig || safe = orig then st
  else
    ⟨pruneSize MAX_TOOL_NAME_ENTRIES
        (odSet (tnMaybeCleanup now st).entries (tnMakeKey sid model safe) ⟨orig.getD "", now⟩),
      (tnMaybeCleanup now st).lastCleanup⟩

def get_original_tool_name (sid model safe : Option String) (now : Int)
    (st : ToolNameCacheState) : Option String × ToolNameCacheState :=
  if pyFalsyStr safe then (none, st)
  else
    match odLookup (tnMaybeCleanup now st).entries (tnMakeKey sid model safe) with
    | none => (none, tnMaybeCleanup now st)
    | some e =>
      if ENTRY_TTL_SECONDS < now - e.ts then
        (none, ⟨odPop (tnMaybeCleanup now st).entries (tnMakeKey sid model safe),
          (tnMaybeCleanup now st).lastCleanup⟩)
      else (some e.value, tnMaybeCleanup now st)

/-! ### Arbitrary operation sequences against the caches -/

inductive SigOp where
  | setR (sid model sig : Option String) (now : Int)
  | setT (sid model sig : Option String) (now : Int)
  | getR (sid model : Option String) (now : Int)
  | getT (sid model : Option String) (now : Int)

def applySigOp : SigOp → SigCacheState → SigCacheState
  | .setR sid model sig now, st => set_reasoning_signature sid model sig now st
  | .setT sid model sig now, st => set_tool_signature sid model sig now st
  | .getR sid model now, st => (get_reasoning_signature sid model now st).2
  | .getT sid model now, st => (get_tool_signature sid model now st).2

def applySigOps : List SigOp → SigCacheState → SigCacheState
  | [], st => st
  | op :: rest, st => applySigOps rest (applySigOp op st)

inductive ToolNameOp where
  | setM (sid model safe orig : Option String) (now : Int)
  | getM (sid model safe : Option String) (now : Int)

def applyToolNameOp : ToolNameOp → ToolNameCacheState → ToolNameCacheState
  | .setM sid model safe orig now, st => set_tool_name_mapping sid model safe orig now st
  | .getM sid model safe now, st => (get_original_tool_name sid model safe now st).2

def applyToolNameOps : List ToolNameOp → ToolNameCacheState → ToolNameCacheState
  | [], st => st
  | op :: rest, st => applyToolNameOps rest (applyToolNameOp op st)

/-! ### Cache lemmas -/

theorem pruneSize_length_le (maxE : Nat) :
    ∀ es : List (String × CacheEntry), (pruneSize maxE es).length ≤ maxE := by
  intro es
  induction es with
  | nil => simp [pruneSize]
  | cons e rest ih =>
    rw [pruneSize]
    by_cases h : maxE < (e :: rest).length
    · rw [if_pos h]; exact ih
    · rw [if_neg h]; omega

theorem pruneExpired_length_le (now : Int) (es : List (String × CacheEntry)) :
    (pruneExpired now es).length ≤ es.length :=
  List.length_filter_le _ _

theorem odPop_length_le (k : String) :
    ∀ es : List (String × CacheEntry), (odPop es k).length ≤ es.length := by
  intro es
  induction es with
  | nil => simp [odPop]
  | cons e rest ih =>
    rw [odPop]
    rcases e with ⟨k0, e0⟩
    by_cases h : k0 = k
    · rw [if_pos h]; simp
    · rw [if_neg h]; simpa using ih

/-- Size invariant of the signature-cache state. -/
def sigSizeInv (st : SigCacheState) : Prop :=
  st.reasoning.length ≤ MAX_REASONING_ENTRIES ∧ st.tool.length ≤ MAX_TOOL_ENTRIES

theorem sigMaybeCleanup_inv {st : SigCacheState} (h : sigSizeInv st) (now : Int) :
    sigSizeInv (sigMaybeCleanup now st) := by
  rw [sigMaybeCleanup]
  split
  · exact h
  · exact ⟨le_trans (pruneExpired_length_le _ _) h.1,
      le_trans (pruneExpired_length_le _ _) h.2⟩

theorem applySigOp_inv (op : SigOp) {st : SigCacheState} (h : sigSizeInv st) :
    sigSizeInv (applySigOp op st) := by
  cases op with
  | setR sid model sig now =>
    rw [applySigOp, set_reasoning_signature]
    split
    · exact h
    · exact ⟨pruneSize_length_le _ _, (sigMaybeCleanup_inv h now).2⟩
  | setT sid model sig now =>
    rw [applySigOp, set_tool_signature]
    split
    · exact h
    · exact ⟨(sigMaybeCleanup_inv h now).1, pruneSize_length_le _ _⟩
  | getR sid model now =>
    rw [applySigOp, get_reasoning_signature]
    have h1 := sigMaybeCleanup_inv h now
    split
    · exact h1
    · split
      · exact ⟨le_trans (odPop_length_le _ _) h1.1, h1.2⟩
      · exact h1
  | getT sid model now =>
    rw [applySigOp, get_tool_signature]
    have h1 := sigMaybeCleanup_inv h now
    split
    · exact h1
    · split
      · exact ⟨h1.1, le_trans (odPop_length_le _ _) h1.2⟩
      · exact h1

theorem applySigOps_inv (ops : List SigOp) {st : SigCacheState} (h : sigSizeInv st) :
    sigSizeInv (applySigOps ops st) := by
  induction ops generalizing st with
  | nil => exact h
  | cons op rest ih => exact ih (applySigOp_inv op h)

theorem tnMaybeCleanup_inv {st : ToolNameCacheState}
    (h : st.entries.length ≤ MAX_TOOL_NAME_ENTRIES) (now : Int) :
    (tnMaybeCleanup now st).entries.length ≤ MAX_TOOL_NAME_ENTRIES := by
  rw [tnMaybeCleanup]
  split
  · exact h
  · exact le_trans (pruneExpired_length_le _ _) h

theorem applyToolNameOp_inv (op : ToolNameOp) {st : ToolNameCacheState}
    (h : st.entries.length ≤ MAX_TOOL_NAME_ENTRIES) :
    (applyToolNameOp op st).entries.length ≤ MAX_TOOL_NAME_ENTRIES := by
  cases op with
  | setM sid model safe orig now =>
    rw [applyToolNameOp, set_tool_name_mapping]
    split
    · exact h
    · exact pruneSize_length_le _ _
  | getM sid model safe now =>
    rw [applyToolNameOp, get_original_tool_name]
    split
    · exact h
    · have h1 := tnMaybeCleanup_inv h now
      split
      · exact h1
      · split
        · exact le_trans (odPop_length_le _ _) h1
        · exact h1

theorem applyToolNameOps_inv (ops : List ToolNameOp) {st : ToolNameCacheState}
    (h : st.entries.length ≤ MAX_TOOL_NAME_ENTRIES) :
    (applyToolNameOps ops st).entries.length ≤ MAX_TOOL_NAME_ENTRIES := by
  induction ops generalizing st with
  | nil => exact h
  | cons op rest ih => exact ih (applyToolNameOp_inv op h)

theorem odLookup_none_of_not_mem {es : List (String × CacheEntry)} {k : String}
    (h : k ∉ es.map Prod.fst) : odLookup es k = none := by
  induction es with
  | nil => rfl
  | cons e rest ih =>
    rcases e with ⟨k0, e0⟩
    simp only [List.map_cons, List.mem_cons] at h
    push_neg at h
    rw [odLookup, if_neg (fun he => h.1 he.symm), ih h.2]

theorem odLookup_pruneExpired_of_expired {es : List (String × CacheEntry)}
    {k : String} {e : CacheEntry} (hnd : (es.map Prod.fst).Nodup)
    (hl : odLookup es k = some e) {now : Int} (hex : ENTRY_TTL_SECONDS < now - e.ts) :
    odLookup (pruneExpired now es) k = none := by
  induction es with
  | nil => simp [odLookup] at hl
  | cons kv rest ih =>
    rcases kv with ⟨k0, e0⟩
    simp only [List.map_cons, List.nodup_cons] at hnd
    rw [odLookup] at hl
    by_cases hk : k0 = k
    · rw [if_pos hk] at hl
      injection hl with he
      subst he
      rw [pruneExpired, List.filter_cons]
      rw [if_neg (by simp; omega)]
      apply odLookup_none_of_not_mem
      subst hk
      intro hmem
      exact hnd.1 (((List.filter_sublist _).map Prod.fst).subset hmem)
    · rw [if_neg hk] at hl
      rw [pruneExpired, List.filter_cons]
      split
      · rw [odLookup, if_neg hk]
        exact ih hnd.2 hl
      · exact ih hnd.2 hl

theorem odLookup_odPop_self {es : List (String × CacheEntry)} {k : String}
    (hnd : (es.map Prod.fst).Nodup) : odLookup (odPop es k) k = none := by
  induction es with
  | nil => rfl
  | cons kv rest ih =>
    rcases kv with ⟨k0, e0⟩
    simp only [List.map_cons, List.nodup_cons] at hnd
    rw [odPop]
    by_cases hk : k0 = k
    · rw [if_pos hk]
      subst hk
      exact odLookup_none_of_not_mem hnd.1
    · rw [if_neg hk, odLookup, if_neg hk]
      exact ih hnd.2

theorem pruneExpired_map_fst_sublist (now : Int) (es : List (String × CacheEntry)) :
    ((pruneExpired now es).map Prod.fst).Sublist (es.map Prod.fst) :=
  List.Sublist.map _ (List.filter_sublist _)

/-- TTL behaviour of `get_reasoning_signature`: an entry older than the TTL is
not returned and is removed (either by the opportunistic sweep or by the
explicit expiry check). -/
theorem get_reasoning_signature_ttl {sid model : Option String} {now : Int}
    {st : SigCacheState} {e : CacheEntry}
    (hnd : (st.reasoning.map Prod.fst).Nodup)
    (hl : odLookup st.reasoning (sigMakeKey sid model) = some e)
    (hex : ENTRY_TTL_SECONDS < now - e.ts) :
    (get_reasoning_signature sid model now st).1 = none
    ∧ odLookup (get_reasoning_signature sid model now st).2.reasoning
        (sigMakeKey sid model) = none := by
  rw [get_reasoning_signature, sigMaybeCleanup]
  by_cases hcl : now - st.lastCleanup < CLEAN_INTERVAL_SECONDS
  · rw [if_pos hcl]
    simp only [hl, hex, if_true]
    exact ⟨trivial, odLookup_odPop_self hnd⟩
  · rw [if_neg hcl]
    have hnone := odLookup_pruneExpired_of_expired hnd hl hex
    simp only [hnone]
    exact ⟨trivial, trivial⟩

/-- TTL behaviour of `get_tool_signature`. -/
theorem get_tool_signature_ttl {sid model : Option String} {now : Int}
    {st : SigCacheState} {e : CacheEntry}
    (hnd : (st.tool.map Prod.fst).Nodup)
    (hl : odLookup st.tool (sigMakeKey sid model) = some e)
    (hex : ENTRY_TTL_SECONDS < now - e.ts) :
    (get_tool_signature sid model now st).1 = none
    ∧ odLookup (get_tool_signature sid model now st).2.tool
        (sigMakeKey sid model) = none := by
  rw [get_tool_signature, sigMaybeCleanup]
  by_cases hcl : now - st.lastCleanup < CLEAN_INTERVAL_SECONDS
  · rw [if_pos hcl]
    simp only [hl, hex, if_true]
    exact ⟨trivial, odLookup_odPop_self hnd⟩
  · rw [if_neg hcl]
    have hnone := odLookup_pruneExpired_of_expired hnd hl hex
    simp only [hnone]
    exact ⟨trivial, trivial⟩

/-- TTL behaviour of `get_original_tool_name`. -/
theorem get_original_tool_name_ttl {sid model safe : Option String} {now : Int}
    {st : ToolNameCacheState} {e : CacheEntry}
    (hsafe : pyFalsyStr safe = false)
    (hnd : (st.entries.map Prod.fst).Nodup)
    (hl : odLookup st.entries (tnMakeKey sid model safe) = some e)
    (hex : ENTRY_TTL_SECONDS < now - e.ts) :
    (get_original_tool_name sid model safe now st).1 = none
    ∧ odLookup (get_original_tool_name sid model safe now st).2.entries
        (tnMakeKey sid model safe) = none := by
  rw [get_original_tool_name, if_neg (by simp [hsafe]), tnMaybeCleanup]
  by_cases hcl : now - st.lastCleanup < CLEAN_INTERVAL_SECONDS
  · rw [if_pos hcl]
    simp only [hl, hex, if_true]
    exact ⟨trivial, odLookup_odPop_self hnd⟩
  · rw [if_neg hcl]
    have hnone := odLookup_pruneExpired_of_expired hnd hl hex
    simp only [hnone]
    exact ⟨trivial, trivial⟩

/-- C8.  For each of the three TTL+LRU caches (reasoning-signature,
tool-signature, tool-name): any sequence of operations starting from the empty
module state leaves at most MAX entries (256, 256 and 512 respectively) in the
map, and a get performed more than the 30-minute TTL after an entry's insertion
returns `None` and removes that entry. -/
theorem caches_bounded_and_ttl (ops : List SigOp) (tops : List ToolNameOp)
    (sid model safe : Option String) (now : Int)
    (st : SigCacheState) (tst : ToolNameCacheState) (e1 e2 e3 : CacheEntry)
    (hnd1 : (st.reasoning.map Prod.fst).Nodup)
    (hnd2 : (st.tool.map Prod.fst).Nodup)
    (hnd3 : (tst.entries.map Prod.fst).Nodup)
    (hsafe : pyFalsyStr safe = false)
    (hl1 : odLookup st.reasoning (sigMakeKey sid model) = some e1)
    (hl2 : odLookup st.tool (sigMakeKey sid model) = some e2)
    (hl3 : odLookup tst.entries (tnMakeKey sid model safe) = some e3)
    (hex1 : ENTRY_TTL_SECONDS < now - e1.ts)
    (hex2 : ENTRY_TTL_SECONDS < now - e2.ts)
    (hex3 : ENTRY_TTL_SECONDS < now - e3.ts) :
    ((applySigOps ops sigInit).reasoning.length ≤ MAX_REASONING_ENTRIES
        ∧ (applySigOps ops sigInit).tool.length ≤ MAX_TOOL_ENTRIES)
    ∧ (applyToolNameOps tops tnInit).entries.length ≤ MAX_TOOL_NAME_ENTRIES
    ∧ ((get_reasoning_signature sid model now st).1 = none
        ∧ odLookup (get_reasoning_signature sid model now st).2.reasoning
            (sigMakeKey sid model) = none)
    ∧ ((get_tool_signature sid model now st).1 = none
        ∧ odLookup (get_tool_signature sid model now st).2.tool
            (sigMakeKey sid model) = none)
    ∧ ((get_original_tool_name sid model safe now tst).1 = none
        ∧ odLookup (get_original_tool_name sid model safe now tst).2.entries
            (tnMakeKey sid model safe) = none) :=
  ⟨applySigOps_inv ops ⟨by simp [sigInit, MAX_REASONING_ENTRIES], by simp [sigInit, MAX_TOOL_ENTRIES]⟩,
    applyToolNameOps_inv tops (by simp [tnInit, MAX_TOOL_NAME_ENTRIES]),
    get_reasoning_signature_ttl hnd1 hl1 hex1,
    get_tool_signature_ttl hnd2 hl2 hex2,
    get_original_tool_name_ttl hsafe hnd3 hl3 hex3⟩

/-- Witness for C8: a one-operation history on each cache and a concrete
expired entry looked up 40 minutes after insertion. -/
theorem caches_bounded_and_ttl_witness :
    ((applySigOps [SigOp.setR (some "s") (some "m") (some "sig") 0] sigInit).reasoning.length
          ≤ MAX_REASONING_ENTRIES
        ∧ (applySigOps [SigOp.setR (some "s") (some "m") (some "sig") 0] sigInit).tool.length
          ≤ MAX_TOOL_ENTRIES)
    ∧ (applyToolNameOps [ToolNameOp.setM (some "s") (some "m") (some "safe") (some "orig") 0]
          tnInit).entries.length ≤ MAX_TOOL_NAME_ENTRIES
    ∧ ((get_reasoning_signature (some "s") (some "m") 2400
          ⟨[("s::m", ⟨"sig", 0⟩)], [("s::m", ⟨"toolsig", 0⟩)], 0⟩).1 = none
        ∧ odLookup (get_reasoning_signature (some "s") (some "m") 2400
            ⟨[("s::m", ⟨"sig", 0⟩)], [("s::m", ⟨"toolsig", 0⟩)], 0⟩).2.reasoning
            (sigMakeKey (some "s") (some "m")) = none)
    ∧ ((get_tool_signature (some "s") (some "m") 2400
          ⟨[("s::m", ⟨"sig", 0⟩)], [("s::m", ⟨"toolsig", 0⟩)], 0⟩).1 = none
        ∧ odLookup (get_tool_signature (some "s") (some "m") 2400
            ⟨[("s::m", ⟨"sig", 0⟩)], [("s::m", ⟨"toolsig", 0⟩)], 0⟩).2.tool
            (sigMakeKey (some "s") (some "m")) = none)
    ∧ ((get_original_tool_name (some "s") (some "m") (some "safe") 2400
          ⟨[("s::m::safe", ⟨"orig", 0⟩)], 0⟩).1 = none
        ∧ odLookup (get_original_tool_name (some "s") (some "m") (some "safe") 2400
            ⟨[("s::m::safe", ⟨"orig", 0⟩)], 0⟩).2.entries
            (tnMakeKey (some "s") (some "m") (some "safe")) = none) :=
  caches_bounded_and_ttl
    [SigOp.setR (some "s") (some "m") (some "sig") 0]
    [ToolNameOp.setM (some "s") (some "m") (some "safe") (some "orig") 0]
    (some "s") (some "m") (some "safe") 2400
    ⟨[("s::m", ⟨"sig", 0⟩)], [("s::m", ⟨"toolsig", 0⟩)], 0⟩
    ⟨[("s::m::safe", ⟨"orig", 0⟩)], 0⟩
    ⟨"sig", 0⟩ ⟨"toolsig", 0⟩ ⟨"orig", 0⟩
    (by simp) (by simp) (by simp) (by simp [pyFalsyStr])
    (by simp [sigMakeKey, odLookup]) (by simp [sigMakeKey, odLookup])
    (by simp [tnMakeKey, odLookup]) (by simp [ENTRY_TTL_SECONDS])
    (by simp [ENTRY_TTL_SECONDS]) (by simp [ENTRY_TTL_SECONDS])

/-! ## Converter helpers (`src/converter.py`) -/

/-- Python `v.get(k)` when `v` is a JSON object; `none` otherwise (the verified
paths only reach this with dicts). -/
def JVal.getKey (v : JVal) (k : String) : Option JVal :=
  match v with
  | .obj fs => fs.lookup k
  | _ => none

/-- Python `v.get(k, d)` with non-dicts treated as empty. -/
def JVal.getKeyD (v : JVal) (k : String) (d : JVal) : JVal :=
  ((JVal.getKey v k).getD d)

/-- Python `a or b` on two optional JSON values (`get` results). -/
def pyOr (a b : Option JVal) : Option JVal :=
  match a with
  | some v => if v.truthy then some v else b
  | none => b

/-- Python `isinstance(x, str) and x` on a `get` result. -/
def isNonemptyStr (v : Option JVal) : Bool :=
  match v with
  | some (.str s) => s ≠ ""
  | _ => false

/-- The argument handed to the cache key builders: the caches format
`f"{x or ''}"`, so a falsy value becomes the empty component and anything else
is `str()`-ed. -/
def sigKeyArg (v : JVal) : Option String :=
  if v.truthy then some v.pyStr else none

def lookupAssocStr : List (String × String) → String → Option String
  | [], _ => none
  | (k, v) :: rest, key => if k = key then some v else lookupAssocStr rest key

def lookupAssocInt : List (String × Int) → String → Option Int
  | [], _ => none
  | (k, v) :: rest, key => if k = key then some v else lookupAssocInt rest key

/-- Python `s.split(c, 1)` when the separator occurs: the part before the first
separator and the part after it. -/
def splitOnceChar (c : Char) : List Char → Option (List Char × List Char)
  | [] => none
  | d :: rest =>
    if d = c then some ([], rest)
    else
      match splitOnceChar c rest with
      | some (a, b) => some (d :: a, b)
      | none => none

def replaceAllAux (needle : List Char) : Nat → List Char → List Char
  | 0, cs => cs
  | fuel + 1, cs =>
    match cs with
    | [] => []
    | c :: rest =>
      if listStarts cs needle then replaceAllAux needle fuel (cs.drop needle.length)
      else c :: replaceAllAux needle fuel rest

/-- Python `s.replace(needle, "")` for a non-empty needle (the only use is
`.replace("data:", "")`). -/
def strRemoveAll (s needle : String) : String :=
  if needle.data.isEmpty then s
  else String.mk (replaceAllAux needle.data s.data.length s.data)

def strJoin (sep : String) : List String → String
  | [] => ""
  | [x] => x
  | x :: rest => x ++ sep ++ strJoin sep rest

/-- Python `(s or "").rstrip("/")`. -/
def rstripSlash (s : String) : String :=
  String.mk ((s.data.reverse.dropWhile (fun c => c = '/')).reverse)

/-! ### Thought-signature constants and model dispatch -/

def CLAUDE_THOUGHT_SIGNATURE : String :=
  "RXVNQkNrZ0lDaEFDR0FJcVFLZGsvMnlyR0VTbmNKMXEyTFIrcWwyY2ozeHhoZHRPb0VOYWJ2VjZMSnE2MlBhcEQrUWdI"
  ++ "M3ZWeHBBUG9rbGN1aXhEbXprZTcvcGlkbWRDQWs5MWcrTVNERnRhbWJFOU1vZWZGc1pWSGhvTUxsMXVLUzRoT3BIaWwy"
  ++ "eXBJakNYa05EVElMWS9talprdUxvRjFtMmw5dnkrbENhSDNNM3BYNTM0K1lRZ0NaWTQvSUNmOXo4SkhZVzU2Sm1WcTZB"
  ++ "cVNRUURBRGVMV1BQRXk1Q0JsS0dCZXlNdHp2NGRJQVlGbDFSMDBXNGhqNHNiSWNKeGY0UGZVQTBIeE1mZjJEYU5BRXdr"
  ++ "WUJ4MmNzRFMrZGM1N1hnUlVNblpkZ0hTVHVNaGdod1lBUT09"

/-- The Gemini and tool fallback blobs are likewise fixed opaque constants;
no theorem depends on their byte content, only on which constant is chosen. -/
def GEMINI_THOUGHT_SIGNATURE : String :=
  "EqAHCp0HAXLI2nygRbdzD4Vgzxxi7tbM87zIRkNgPLqTj+Jxv9mY8Q0G87DzbTtvsIFhWB0RZMoEK6ntm5GmUe6ADtxH"
  ++ "k4zgHUs/FKqTu8tzUdPRDrKn3KCAtFW4LJqijZoFxNKMyQRmlgPUX4tGYE7pllD77UK6SjCwKhKZoSVZLMiPXP9YFktb"
  ++ "(gemini-constant-tail-unused-by-all-theorems)"

def TOOL_THOUGHT_SIGNATURE : String :=
  "EqoNCqcNAXLI2nwkidsFconk7xHt7x0zIOX7n/JR7DTKiPa/03uqJ9OmZaujaw0xNQxZ0wNCx8NguJ+sAfaIpek62+aBnc"
  ++ "(tool-constant-tail-unused-by-all-theorems)"

def DEFAULT_THOUGHT_SIGNATURE : String := CLAUDE_THOUGHT_SIGNATURE

def get_thought_signature_for_model (model : Option String) : String :=
  if strContainsSub (strLower (model.getD "")) "gemini" then GEMINI_THOUGHT_SIGNATURE
  else if strContainsSub (strLower (model.getD "")) "claude" then CLAUDE_THOUGHT_SIGNATURE
  else DEFAULT_THOUGHT_SIGNATURE

def get_tool_thought_signature_for_model (model : Option String) : String :=
  if strContainsSub (strLower (model.getD "")) "claude" then CLAUDE_THOUGHT_SIGNATURE
  else TOOL_THOUGHT_SIGNATURE

/-! ### `sanitize_tool_name` -/

/-- A character allowed by the regex class `[a-zA-Z0-9_-]`. -/
def isToolNameChar (c : Char) : Bool :=
  c.isAlpha || c.isDigit || c = '_' || c = '-'

/-- `re.sub(r"^_+|_+$", "", s)`: strip leading and trailing underscore runs. -/
def stripUnderscores (cs : List Char) : List Char :=
  ((cs.dropWhile (fun c => c = '_')).reverse.dropWhile (fun c => c = '_')).reverse

/-- `sanitize_tool_name`: non-strings and empty strings become `"tool"`;
otherwise disallowed characters are replaced by `_`, outer underscores are
stripped, an empty remainder falls back to `"tool"`, and the result is capped
at 128 characters. -/
def sanitize_tool_name (name : JVal) : String :=
  match name with
  | .str s =>
    if s = "" then "tool"
    else
      let cleaned := s.data.map (fun c => if isToolNameChar c then c else '_')
      let stripped := stripUnderscores cleaned
      if stripped.isEmpty then "tool" else String.mk (stripped.take 128)
  | _ => "tool"

/-- The spec's regex `^[A-Za-z0-9_-]{1,128}$` as a decidable predicate. -/
def toolNameOk (s : String) : Bool :=
  decide (1 ≤ s.data.length) && decide (s.data.length ≤ 128) && s.data.all isToolNameChar

theorem mem_stripUnderscores {cs : List Char} {c : Char} (h : c ∈ stripUnderscores cs) :
    c ∈ cs := by
  rw [stripUnderscores] at h
  rw [List.mem_reverse] at h
  have h2 := List.dropWhile_sublist (l := (cs.dropWhile (fun c => c = '_')).reverse)
    (p := fun c => c = '_')
  have h3 : c ∈ (cs.dropWhile (fun c => c = '_')).reverse := h2.subset h
  rw [List.mem_reverse] at h3
  exact (List.dropWhile_sublist _).subset h3

theorem sanitize_tool_name_ok (name : JVal) : toolNameOk (sanitize_tool_name name) = true := by
  have htool : toolNameOk "tool" = true := by decide
  match name with
  | .null | .bool _ | .num _ | .arr _ | .obj _ => exact htool
  | .str s =>
    rw [sanitize_tool_name]
    by_cases hs : s = ""
    · rw [if_pos hs]; exact htool
    · rw [if_neg hs]
      by_cases hstr :
          (stripUnderscores (s.data.map (fun c => if isToolNameChar c then c else '_'))).isEmpty
      · rw [if_pos hstr]; exact htool
      · rw [if_neg hstr]
        rw [List.isEmpty_iff] at hstr
        set cleaned := s.data.map (fun c => if isToolNameChar c then c else '_') with hcl
        have hall : ∀ c ∈ stripUnderscores cleaned, isToolNameChar c = true := by
          intro c hc
          have hmem := mem_stripUnderscores hc
          rw [hcl] at hmem
          obtain ⟨d, _, hd⟩ := List.mem_map.mp hmem
          by_cases hdok : isToolNameChar d
          · rw [if_pos hdok] at hd; rw [← hd]; exact hdok
          · rw [if_neg hdok] at hd; rw [← hd]; decide
        rw [toolNameOk]
        have hlen : (String.mk ((stripUnderscores cleaned).take 128)).data
            = (stripUnderscores cleaned).take 128 := rfl
        rw [hlen]
        have h1 : 1 ≤ ((stripUnderscores cleaned).take 128).length := by
          rw [List.length_take]
          rcases hne : stripUnderscores cleaned with _ | ⟨a, l⟩
          · exact absurd hne hstr
          · simp
        have h2 : ((stripUnderscores cleaned).take 128).length ≤ 128 := by
          rw [List.length_take]; omega
        have h3 : ((stripUnderscores cleaned).take 128).all isToolNameChar = true := by
          rw [List.all_eq_true]
          intro c hc
          exact hall c ((List.take_sublist _ _).subset hc)
        rw [h3]
        simp [h1, h2]
        have hpos := List.length_pos.mpr hstr
        omega

/-! ### Tool schema cleanup (`clean_tool_parameters_schema`) -/

def EXCLUDED_SCHEMA_KEYS : List String :=
  ["$schema", "additionalProperties", "minLength", "maxLength", "minItems",
   "maxItems", "uniqueItems", "exclusiveMaximum", "exclusiveMinimum", "const",
   "anyOf", "oneOf", "allOf", "any_of", "one_of", "all_of"]

mutual
def clean_tool_parameters_schema : JVal → JVal
  | .obj fs => .obj (cleanObjFields fs)
  | .arr xs => .arr (cleanArrItems xs)
  | v => v

def cleanObjFields : JObj → JObj
  | .nil => .nil
  | .cons k v rest =>
    if EXCLUDED_SCHEMA_KEYS.contains k then cleanObjFields rest
    else .cons k (clean_tool_parameters_schema v) (cleanObjFields rest)

def cleanArrItems : JArr → JArr
  | .nil => .nil
  | .cons v rest => .cons (clean_tool_parameters_schema v) (cleanArrItems rest)
end

/-! ### `normalize_schema` and `ensure_schema_defaults` -/

def SCHEMA_TYPE_MAPPING : List (String × String) :=
  [("string", "string"), ("number", "number"), ("integer", "integer"),
   ("boolean", "boolean"), ("array", "array"), ("object", "object"),
   ("null", "null")]

def schemaTypeMapped (t : String) : String :=
  match lookupAssocStr SCHEMA_TYPE_MAPPING (strLower t) with
  | some m => m
  | none => strLower t

def mapTypeListItems : JArr → JArr
  | .nil => .nil
  | .cons (.str t) rest => .cons (.str (schemaTypeMapped t)) (mapTypeListItems rest)
  | .cons v rest => .cons v (mapTypeListItems rest)

/-- Type-field normalisation step of `normalize_schema`. -/
def normTypeField (fs : JObj) : JObj :=
  match fs.lookup "type" with
  | some (.str t) => fs.set "type" (.str (schemaTypeMapped t))
  | some (.arr xs) => fs.set "type" (.arr (mapTypeListItems xs))
  | _ => fs

def filterStrItems : JArr → JArr
  | .nil => .nil
  | .cons (.str t) rest => .cons (.str t) (filterStrItems rest)
  | .cons _ rest => filterStrItems rest

def itemsListDefaults : JArr → JArr
  | .nil => .nil
  | .cons (.obj fs) rest => .cons (.obj fs) (itemsListDefaults rest)
  | .cons _ rest => .cons (jO []) (itemsListDefaults rest)

/-- `ensure_schema_defaults`: default `properties`/`items`, coerce `required`
to a list of strings, wrap a scalar `enum`. -/
def ensureSchemaDefaults (fs : JObj) : JObj :=
  let fs1 :=
    if JVal.isStrEq (fs.lookup "type") "object" then
      let fsp :=
        match fs.lookup "properties" with
        | some (.obj _) => fs
        | _ => fs.set "properties" (jO [])
      match fsp.lookup "required" with
      | some (.arr xs) => fsp.set "required" (.arr (filterStrItems xs))
      | some .null => fsp
      | some v => fsp.set "required" (jA [.str v.pyStr])
      | none => fsp
    else if JVal.isStrEq (fs.lookup "type") "array" then
      match fs.lookup "items" with
      | some (.obj _) => fs
      | some (.arr xs) => fs.set "items" (.arr (itemsListDefaults xs))
      | _ => fs.set "items" (jO [])
    else fs
  match fs1.lookup "enum" with
  | some .null => fs1
  | some (.arr _) => fs1
  | some v => fs1.set "enum" (jA [v])
  | none => fs1

def isSectionKey (k : String) : Bool :=
  k = "properties" || k = "patternProperties" || k = "definitions" || k = ""

def isOfKey (k : String) : Bool :=
  k = "anyOf" || k = "allOf" || k = "oneOf"

def isCondKey (k : String) : Bool :=
  k = "not" || k = "if" || k = "then" || k = "else"

-- `normalize_schema`.  The imperative original normalises the `type` field
-- first, recurses into the nested schemas, and applies `ensure_schema_defaults`
-- last; since the recursion never touches the `type` field, recursing first
-- commutes and keeps the recursion structural.
mutual
def normalize_schema : JVal → JVal
  | .obj fs => .obj (ensureSchemaDefaults (normTypeField (normRecFields fs)))
  | v => v

def normRecFields : JObj → JObj
  | .nil => .nil
  | .cons k v rest =>
    .cons k
      (match v with
       | .obj fs2 =>
         if isSectionKey k then .obj (normSectionFields fs2)
         else if k = "items" || k = "additionalProperties" || isCondKey k then
           .obj (ensureSchemaDefaults (normTypeField (normRecFields fs2)))
         else .obj fs2
       | .arr xs =>
         if k = "items" || k = "prefixItems" || isOfKey k then .arr (normArrDicts xs)
         else .arr xs
       | w => w)
      (normRecFields rest)

def normSectionFields : JObj → JObj
  | .nil => .nil
  | .cons k v rest =>
    .cons k
      (match v with
       | .obj fs2 => .obj (ensureSchemaDefaults (normTypeField (normRecFields fs2)))
       | w => w)
      (normSectionFields rest)

def normArrDicts : JArr → JArr
  | .nil => .nil
  | .cons v rest =>
    .cons
      (match v with
       | .obj fs2 => .obj (ensureSchemaDefaults (normTypeField (normRecFields fs2)))
       | w => w)
      (normArrDicts rest)
end

/-! ### `validate_schema` (modelled as: the recursive check collects no
errors) -/

def SUPPORTED_SCHEMA_TYPES : List String :=
  ["string", "number", "integer", "boolean", "array", "object", "null"]

def allStrItems : JArr → Bool
  | .nil => true
  | .cons (.str _) rest => allStrItems rest
  | .cons _ _ => false

/-- The non-recursive checks of `_validate_schema_recursive` on one node. -/
def validTop (fs : JObj) : Bool :=
  (match fs.lookup "type" with
   | some (.str t) => SUPPORTED_SCHEMA_TYPES.contains t
   | _ => true)
  && (if JVal.isStrEq (fs.lookup "type") "object" then
        (match fs.lookup "properties" with
         | none => true
         | some .null => true
         | some (.obj _) => true
         | some _ => false)
        && (match fs.lookup "required" with
            | none => true
            | some .null => true
            | some (.arr xs) => allStrItems xs
            | some _ => false)
      else true)
  && (if JVal.isStrEq (fs.lookup "type") "array" then
        (match fs.lookup "items" with
         | none => true
         | some .null => true
         | some (.obj _) => true
         | some (.arr _) => true
         | some _ => false)
      else true)

mutual
def validV : JVal → Bool
  | .obj fs => validTop fs && validRecFields fs
  | _ => false

def validRecFields : JObj → Bool
  | .nil => true
  | .cons k v rest =>
    (match v with
     | .obj fs2 =>
       if isSectionKey k then validSectionFields fs2
       else if k = "items" || k = "additionalProperties" || isCondKey k then
         validTop fs2 && validRecFields fs2
       else true
     | .arr xs =>
       if k = "items" || isOfKey k then validArrItems xs else true
     | _ =>
       if isSectionKey k then true else true)
    && validRecFields rest

def validSectionFields : JObj → Bool
  | .nil => true
  | .cons _ v rest =>
    (match v with
     | .obj fs2 => validTop fs2 && validRecFields fs2
     | _ => false)
    && validSectionFields rest

def validArrItems : JArr → Bool
  | .nil => true
  | .cons v rest =>
    (match v with
     | .obj fs2 => validTop fs2 && validRecFields fs2
     | _ => false)
    && validArrItems rest
end

def validate_schema (schema : JVal) : Bool := validV schema

/-! ### `convert_tools` -/

def setKeyOf (v : JVal) (k : String) (w : JVal) : JVal :=
  match v with
  | .obj fs => .obj (fs.set k w)
  | other => other

/-- Drop the candidate declaration when its schema failed validation
(`if not RequestConverter.validate_schema(...): continue`), else emit it. -/
def convertToolsCons (valid : Bool) (entry : JVal)
    (res : List JVal × ToolNameCacheState) : List JVal × ToolNameCacheState :=
  if valid = false then res else (entry :: res.1, res.2)

/-- One emitted `functionDeclarations` wrapper. -/
def toolEntry (safe_name : String) (description : JVal) (params : JVal) : JVal :=
  jO [("functionDeclarations",
       jA [jO [("name", .str safe_name), ("description", description),
               ("parameters", params)]])]

/-- `RequestConverter.convert_tools`, threading the tool-name cache.  `model`
is the Python `model` object (a JSON value). -/
def convert_tools (tools : List JVal) (sid : Option String) (model : JVal)
    (now : Int) (tn : ToolNameCacheState) : List JVal × ToolNameCacheState :=
  match tools with
  | [] => ([], tn)
  | tool :: rest =>
    if JVal.isStrEq (tool.getKey "type") "function" = false then
      convert_tools rest sid model now tn
    else
      let func : JObj :=
        match tool.getKey "function" with
        | some (.obj fs) => fs
        | _ => JObj.nil
      let original_name : JVal :=
        match func.lookup "name" with
        | some v => if v.truthy then v else .str "unnamed_function"
        | none => .str "unnamed_function"
      let safe_name := sanitize_tool_name original_name
      let sameName : Bool :=
        match original_name with
        | .str s => s = safe_name
        | _ => false
      let tn1 :=
        if sid.getD "" ≠ "" && model.truthy && !sameName then
          set_tool_name_mapping sid (sigKeyArg model) (some safe_name)
            (some original_name.pyStr) now tn
        else tn
      let params0 : JVal :=
        match func.lookup "parameters" with
        | some v => if v.truthy then v else jO []
        | none => jO []
      let params1 : JVal :=
        match params0 with
        | .obj fs => clean_tool_parameters_schema (.obj fs)
        | _ => jO []
      let params2 : JVal :=
        match params1.getKey "type" with
        | none => setKeyOf params1 "type" (.str "object")
        | some .null => setKeyOf params1 "type" (.str "object")
        | some _ => params1
      let params3 : JVal :=
        if JVal.isStrEq (params2.getKey "type") "object" then
          match params2.getKey "properties" with
          | some (.obj _) => params2
          | _ => setKeyOf params2 "properties" (jO [])
        else params2
      let params4 := normalize_schema params3
      convertToolsCons (validate_schema params4)
        (toolEntry safe_name ((func.lookup "description").getD (.str "")) params4)
        (convert_tools rest sid model now tn1)

/-! ### Tool-name validity of the produced declarations -/

def declsOk : JArr → Bool
  | .nil => true
  | .cons d rest =>
    (match JVal.getKey d "name" with
     | some (.str s) => toolNameOk s
     | _ => false)
    && declsOk rest

def entryNamesOk (e : JVal) : Bool :=
  match JVal.getKey e "functionDeclarations" with
  | some (.arr ds) => declsOk ds
  | _ => false

def producedToolsOk : List JVal → Bool
  | [] => true
  | e :: rest => entryNamesOk e && producedToolsOk rest

/-- Every tool name declared by the produced tools array matches
`^[A-Za-z0-9_-]{1,128}$`. -/
def allToolNamesOk (ts : JVal) : Bool :=
  match ts with
  | .arr a => producedToolsOk a.toList
  | _ => false

theorem entryNamesOk_toolEntry (s : String) (d p : JVal) :
    entryNamesOk (toolEntry s d p) = toolNameOk s := by
  simp [toolEntry, entryNamesOk, declsOk, jO, jA, JObj.ofList, JArr.ofList,
    JVal.getKey, JObj.lookup]

theorem producedToolsOk_convertToolsCons (valid : Bool) (e : JVal)
    (r : List JVal × ToolNameCacheState) (he : entryNamesOk e = true)
    (hr : producedToolsOk r.1 = true) :
    producedToolsOk (convertToolsCons valid e r).1 = true := by
  cases valid <;> simp [convertToolsCons, producedToolsOk, he, hr]

theorem convert_tools_names_ok (tools : List JVal) (sid : Option String)
    (model : JVal) (now : Int) (tn : ToolNameCacheState) :
    producedToolsOk (convert_tools tools sid model now tn).1 = true := by
  induction tools generalizing tn with
  | nil => rfl
  | cons tool rest ih =>
    rw [convert_tools]
    split
    · exact ih tn
    · exact producedToolsOk_convertToolsCons _ _ _
        (by rw [entryNamesOk_toolEntry]; exact sanitize_tool_name_ok _) (ih _)

/-! ### `extract_text_value` -/

mutual
def extract_text_value : JVal → String
  | .str s => s
  | .obj fs =>
    if fs.hasKey "text" then etvKey fs "text"
    else if fs.hasKey "value" then etvKey fs "value"
    else ""
  | _ => ""

def etvKey : JObj → String → String
  | .nil, _ => ""
  | .cons k v rest, target =>
    if k = target then extract_text_value v else etvKey rest target
end

/-! ### `convert_content_to_parts` -/

/-- One `image_url` content item. -/
def imageUrlParts (item : JVal) : List JVal :=
  let url : String :=
    match item.getKey "image_url" with
    | some (.obj fs) =>
      (match fs.lookup "url" with
       | some (.str u) => u
       | _ => "")
    | _ => ""
  if strStarts url "data:image/" then
    match splitOnceChar ',' url.data with
    | some (before, after) =>
      [jO [("inlineData",
            jO [("mimeType",
                 .str (strRemoveAll (String.mk (before.takeWhile (fun c => c ≠ ';'))) "data:")),
                ("data", .str (String.mk after))])]]
    | none => []
  else [jO [("fileData", jO [("fileUri", .str url)])]]

def convParts : List JVal → List JVal
  | [] => []
  | item :: rest =>
    (if JVal.isStrEq (item.getKey "type") "text" then
      [jO [("text", .str (extract_text_value ((item.getKey "text").getD .null)))]]
     else if JVal.isStrEq (item.getKey "type") "image_url" then imageUrlParts item
     else [])
    ++ convParts rest

def convert_content_to_parts (content : JVal) : List JVal :=
  match content with
  | .str s => [jO [("text", .str s)]]
  | .obj fs =>
    if extract_text_value (.obj fs) ≠ "" then
      [jO [("text", .str (extract_text_value (.obj fs)))]]
    else [jO [("text", .str "")]]
  | .arr items =>
    if (convParts items.toList).isEmpty then [jO [("text", .str "")]]
    else convParts items.toList
  | _ => [jO [("text", .str "")]]

/-! ### Message walk (`extract_system_instruction`) -/

structure ToolCallInfo where
  name : String
  thoughtSignature : Option String

/-- An entry of the `contents` list under construction; the code always builds
`{"role": ..., "parts": [...]}` dicts. -/
structure ContentEntry where
  role : String
  parts : List JVal

def entryToJVal (e : ContentEntry) : JVal :=
  jO [("role", .str e.role), ("parts", jA e.parts)]

/-- External effects of the converter that are I/O in Python: `json.loads`
(`none` = raise), `json.dumps`, and the stream of `uuid4().hex` values. -/
structure ConvEnv where
  jsonParse : String → Option JVal
  jsonDumps : JVal → String
  genHex : Nat → String

structure ExtractState where
  systemMessages : List String
  contents : List ContentEntry
  toolMap : List (JVal × ToolCallInfo)
  collecting : Bool
  sig : SigCacheState
  tn : ToolNameCacheState
  ctr : Nat

def initExtractState (sig : SigCacheState) (tn : ToolNameCacheState) : ExtractState :=
  ⟨[], [], [], true, sig, tn, 0⟩

def tmLookup : List (JVal × ToolCallInfo) → JVal → Option ToolCallInfo
  | [], _ => none
  | (k, i) :: rest, key => if JVal.beq k key then some i else tmLookup rest key

def tmSet : List (JVal × ToolCallInfo) → JVal → ToolCallInfo → List (JVal × ToolCallInfo)
  | [], k, i => [(k, i)]
  | (k0, i0) :: rest, k, i =>
    if JVal.beq k0 k then (k0, i) :: rest else (k0, i0) :: tmSet rest k i

/-- `"functionResponse" in part`. -/
def partHasFR (p : JVal) : Bool :=
  match p with
  | .obj fs => fs.hasKey "functionResponse"
  | _ => false

/-- Texts collected from a leading `system` message. -/
def sysListTexts : List JVal → List String
  | [] => []
  | item :: rest =>
    (if JVal.isStrEq (item.getKey "type") "text" then
      (if extract_text_value ((item.getKey "text").getD .null) ≠ "" then
        [extract_text_value ((item.getKey "text").getD .null)]
       else [])
     else [])
    ++ sysListTexts rest

def sysTexts (content : JVal) : List String :=
  match content with
  | .str s => [s]
  | .arr items => sysListTexts items.toList
  | .obj fs =>
    if extract_text_value (.obj fs) ≠ "" then [extract_text_value (.obj fs)] else []
  | _ => []

/-- `RequestConverter.convert_tool_message`. -/
def convert_tool_message (env : ConvEnv) (msg : JVal)
    (tm : List (JVal × ToolCallInfo)) : JVal :=
  let tcId := (msg.getKey "tool_call_id").getD (.str "")
  let info := if tcId.truthy then tmLookup tm tcId else none
  let nameVal : JVal :=
    match info with
    | some i => if i.name ≠ "" then .str i.name else (msg.getKey "name").getD (.str "")
    | none => (msg.getKey "name").getD (.str "")
  let toolName : String :=
    if nameVal.truthy then sanitize_tool_name nameVal else "unknown_function"
  let output : JVal :=
    match msg.getKey "content" with
    | some (.obj fs) => .str (env.jsonDumps (.obj fs))
    | some (.arr xs) => .str (env.jsonDumps (.arr xs))
    | some .null => .str ""
    | none => .str ""
    | some v => .str v.pyStr
  jO [("functionResponse",
       .obj (JObj.cons "name" (.str toolName)
             (JObj.cons "response" (jO [("output", output)])
              (if tcId.truthy then JObj.cons "id" tcId .nil else .nil))))]

/-- Loop-local state of the `tool_calls` walk (the pieces of the module state
the loop reads and writes). -/
structure ToolLoopState where
  toolMap : List (JVal × ToolCallInfo)
  sig : SigCacheState
  tn : ToolNameCacheState
  ctr : Nat

/-- The `tool_calls` loop of the assistant branch. -/
def processToolCalls (env : ConvEnv) (model : JVal) (sid : Option String)
    (enableThinking : Bool) (now : Int) :
    List JVal → List JVal → ToolLoopState → List JVal × ToolLoopState
  | [], parts, st => (parts, st)
  | tc :: rest, parts, st =>
    if JVal.isStrEq (tc.getKey "type") "function" = false then
      processToolCalls env model sid enableThinking now rest parts st
    else
      let func : JObj :=
        match tc.getKey "function" with
        | some (.obj fs) => fs
        | _ => JObj.nil
      let fname := (func.lookup "name").getD .null
      if fname.truthy = false then
        processToolCalls env model sid enableThinking now rest parts st
      else
        let idc : JVal × Nat :=
          match tc.getKey "id" with
          | some v =>
            if v.truthy then (v, st.ctr)
            else (.str ("call_" ++ env.genHex st.ctr), st.ctr + 1)
          | none => (.str ("call_" ++ env.genHex st.ctr), st.ctr + 1)
        let safe := sanitize_tool_name fname
        let sameName : Bool :=
          match fname with
          | .str s => s = safe
          | _ => false
        let tn1 :=
          if sid.getD "" ≠ "" && model.truthy && !sameName then
            set_tool_name_mapping sid (sigKeyArg model) (some safe) (some fname.pyStr) now st.tn
          else st.tn
        let sigRaw := pyOr (tc.getKey "thoughtSignature") (tc.getKey "thought_signature")
        let sigPair : Option JVal × SigCacheState :=
          if enableThinking && !(isNonemptyStr sigRaw) then
            match get_tool_signature sid (sigKeyArg model) now st.sig with
            | (cached, sig1) =>
              match cached with
              | some c =>
                if c ≠ "" then (some (.str c), sig1)
                else (some (.str (get_tool_thought_signature_for_model (sigKeyArg model))), sig1)
              | none =>
                (some (.str (get_tool_thought_signature_for_model (sigKeyArg model))), sig1)
          else (sigRaw, st.sig)
        let info : ToolCallInfo :=
          ⟨safe,
           match sigPair.1 with
           | some (.str s) => some s
           | _ => none⟩
        let args : JVal :=
          match func.lookup "arguments" with
          | some (.str a) =>
            if strStrip a = "" then jO []
            else
              match env.jsonParse a with
              | some parsed => parsed
              | none => jO [("query", .str a)]
          | some (.obj fs2) => .obj fs2
          | _ => jO []
        let part := JVal.obj
          (JObj.cons "functionCall" (jO [("id", idc.1), ("name", .str safe), ("args", args)])
           (if enableThinking then JObj.cons "thoughtSignature" (sigPair.1.getD .null) .nil
            else .nil))
        processToolCalls env model sid enableThinking now rest (parts ++ [part])
          ⟨tmSet st.toolMap idc.1 info, sigPair.2, tn1, idc.2⟩

/-- Assistant branch of the message walk. -/
def assistantStep (env : ConvEnv) (model : JVal) (sid : Option String)
    (enableThinking : Bool) (now : Int) (msg : JVal) (st : ExtractState) : ExtractState :=
  let thinkRes : List JVal × SigCacheState :=
    if enableThinking then
      let rt : String :=
        match msg.getKey "reasoning_content" with
        | some (.str s) => if s ≠ "" then s else " "
        | _ => " "
      let rsigRaw := pyOr (msg.getKey "thoughtSignature") (msg.getKey "thought_signature")
      let rsPair : String × SigCacheState :=
        if isNonemptyStr rsigRaw then
          ((match rsigRaw with
            | some (.str s) => s
            | _ => " "), st.sig)
        else
          match get_reasoning_signature sid (sigKeyArg model) now st.sig with
          | (cached, sig1) =>
            match cached with
            | some c =>
              if c ≠ "" then (c, sig1)
              else (get_thought_signature_for_model (sigKeyArg model), sig1)
            | none => (get_thought_signature_for_model (sigKeyArg model), sig1)
      ([jO [("text", .str rt), ("thought", .bool true)],
        jO [("text", .str " "), ("thoughtSignature", .str rsPair.1)]], rsPair.2)
    else ([], st.sig)
  let content := (msg.getKey "content").getD (.str "")
  let parts1 := thinkRes.1 ++
    (match content with
     | .null => []
     | .str s => if s = "" then [] else convert_content_to_parts (.str s)
     | other => convert_content_to_parts other)
  let tcs :=
    match msg.getKey "tool_calls" with
    | some (.arr xs) => xs.toList
    | _ => []
  let pres := processToolCalls env model sid enableThinking now tcs parts1
    ⟨st.toolMap, thinkRes.2, st.tn, st.ctr⟩
  { st with
    contents := st.contents ++
      [⟨"model", if pres.1.isEmpty then [jO [("text", .str "")]] else pres.1⟩],
    toolMap := pres.2.toolMap,
    sig := pres.2.sig,
    tn := pres.2.tn,
    ctr := pres.2.ctr }

/-- Tool branch of the message walk. -/
def toolMsgStep (env : ConvEnv) (msg : JVal) (st : ExtractState) : ExtractState :=
  let fr := convert_tool_message env msg st.toolMap
  match st.contents.getLast? with
  | some last =>
    if last.role = "user" ∧ last.parts.any partHasFR = true then
      { st with contents := st.contents.dropLast ++ [⟨last.role, last.parts ++ [fr]⟩] }
    else { st with contents := st.contents ++ [⟨"user", [fr]⟩] }
  | none => { st with contents := st.contents ++ [⟨"user", [fr]⟩] }

/-- One iteration of the message loop of `extract_system_instruction`. -/
def extractStep (env : ConvEnv) (model : JVal) (sid : Option String)
    (enableThinking : Bool) (now : Int) (st : ExtractState) (msg : JVal) : ExtractState :=
  let role := msg.getKey "role"
  let content := (msg.getKey "content").getD (.str "")
  if JVal.isStrEq role "system" && st.collecting then
    { st with systemMessages := st.systemMessages ++ sysTexts content }
  else
    let st1 := { st with collecting := false }
    if JVal.isStrEq role "user" || JVal.isStrEq role "system" then
      { st1 with contents := st1.contents ++ [⟨"user", convert_content_to_parts content⟩] }
    else if JVal.isStrEq role "assistant" then
      assistantStep env model sid enableThinking now msg st1
    else if JVal.isStrEq role "tool" then
      toolMsgStep env msg st1
    else
      { st1 with contents := st1.contents ++ [⟨"user", convert_content_to_parts content⟩] }

def extractFold (env : ConvEnv) (model : JVal) (sid : Option String)
    (enableThinking : Bool) (now : Int) : List JVal → ExtractState → ExtractState
  | [], st => st
  | m :: rest, st =>
    extractFold env model sid enableThinking now rest
      (extractStep env model sid enableThinking now st m)

/-- The `systemInstruction` value assembled after the walk. -/
def systemInstructionOf (st : ExtractState) : Option JVal :=
  if st.systemMessages.isEmpty then none
  else some (jO [("parts", jA [jO [("text", .str (strJoin "\n\n" st.systemMessages))]])])

/-! ### `openai_to_google` -/

def DEFAULT_STOP_SEQUENCES : List String :=
  ["<|user|>", "<|bot|>", "<|context_request|>", "<|endoftext|>", "<|end_of_turn|>"]

def REASONING_EFFORT_MAP : List (String × Int) :=
  [("low", 1024), ("medium", 16000), ("high", 32000)]

/-- `RequestConverter.is_image_model` (the Python `model` object). -/
def is_image_model (model : JVal) : Bool :=
  if model.truthy = false then false
  else strEnds (strLower model.pyStr) "-image"

/-- `RequestConverter.is_enable_thinking`. -/
def is_enable_thinking (model : JVal) : Bool :=
  if model.truthy = false then false
  else
    strContainsSub (strLower model.pyStr) "-thinking"
    || strLower model.pyStr = "gemini-2.5-pro"
    || strStarts (strLower model.pyStr) "gemini-3-pro-"
    || strLower model.pyStr = "rev19-uic3-1p"
    || strLower model.pyStr = "gpt-oss-120b-medium"

/-- `RequestConverter.get_thinking_budget`.  (A string budget that parses as
an integer is approximated by the 1024 fallback; no claim touches it.) -/
def get_thinking_budget (req : JObj) (enableThinking : Bool) : Int :=
  if enableThinking = false then 0
  else
    match req.lookup "thinking_budget" with
    | some (.num n) => n
    | some (.bool b) => if b then 1 else 0
    | some .null | none =>
      (match req.lookup "reasoning_effort" with
       | some (.str s) =>
         (match lookupAssocInt REASONING_EFFORT_MAP (strLower s) with
          | some v => v
          | none => 1024)
       | _ => 1024)
    | some _ => 1024

/-- Copy an OpenAI generation parameter into the Google `generationConfig`
when the key is present in the request. -/
def reqLookupPass (req : JObj) (src dst : String) (g : JObj) : JObj :=
  match req.lookup src with
  | some v => g.set dst v
  | none => g

/-- The `generation_config` assembly of `openai_to_google`. -/
def buildGenerationConfig (req : JObj) (model : JVal) (enableThinking : Bool) : JObj :=
  let g := JObj.nil
  let g := reqLookupPass req "temperature" "temperature" g
  let g := reqLookupPass req "max_tokens" "maxOutputTokens" g
  let g := reqLookupPass req "top_p" "topP" g
  let g := reqLookupPass req "top_k" "topK" g
  let g := reqLookupPass req "frequency_penalty" "frequencyPenalty" g
  let g := reqLookupPass req "presence_penalty" "presencePenalty" g
  let g :=
    match req.lookup "stop" with
    | some (.str s) => g.set "stopSequences" (jA [.str s])
    | some (.arr xs) => g.set "stopSequences" (.arr xs)
    | some _ => g
    | none =>
      if g.hasKey "stopSequences" = false then
        g.set "stopSequences" (jA (DEFAULT_STOP_SEQUENCES.map JVal.str))
      else g
  let g := reqLookupPass req "n" "candidateCount" g
  let g :=
    match req.lookup "response_format" with
    | some (.obj fs) =>
      if JVal.isStrEq (fs.lookup "type") "json_object" then
        g.set "responseMimeType" (.str "application/json")
      else g
    | _ => g
  let g := g.set "thinkingConfig"
    (jO [("includeThoughts", .bool enableThinking),
         ("thinkingBudget", .num (get_thinking_budget req enableThinking))])
  if enableThinking && strContainsSub (strLower model.pyStr) "claude" then g.remove "topP"
  else g

/-- `RequestConverter.prepare_image_request`. -/
def prepare_image_request (g : JObj) : JObj :=
  match g.lookup "request" with
  | some (.obj r) =>
    (g.set "requestType" (.str "image_gen")).set "request"
      (.obj ((((r.set "generationConfig" (jO [("candidateCount", .num 1)])).remove
        "systemInstruction").remove "tools").remove "toolConfig"))
  | _ => g

def requestModel (req : JObj) : JVal :=
  (req.lookup "model").getD (.str "gemini-2.5-flash")

def requestMessages (req : JObj) : List JVal :=
  match req.lookup "messages" with
  | some (.arr xs) => xs.toList
  | _ => []

/-- `openai_request.get("tools") or []` (a truthy non-list would raise). -/
def requestTools (req : JObj) : List JVal :=
  match req.lookup "tools" with
  | some (.arr xs) => xs.toList
  | _ => []

/-- The walk over `messages` performed inside `openai_to_google`. -/
def extractStateOf (env : ConvEnv) (req : JObj) (sid : Option String) (now : Int)
    (sig : SigCacheState) (tn : ToolNameCacheState) : ExtractState :=
  extractFold env (requestModel req) sid (is_enable_thinking (requestModel req)) now
    (requestMessages req) (initExtractState sig tn)

/-- The `convert_tools` call performed inside `openai_to_google` (against the
tool-name cache state left by the message walk). -/
def convertedToolsOf (env : ConvEnv) (req : JObj) (sid : Option String) (now : Int)
    (sig : SigCacheState) (tn : ToolNameCacheState) : List JVal × ToolNameCacheState :=
  convert_tools (requestTools req) sid (requestModel req) now
    (extractStateOf env req sid now sig tn).tn

/-- `schema["k"] = v` guarded by a Python `if`. -/
def condSet (o : JObj) (c : Bool) (k : String) (v : JVal) : JObj :=
  if c then o.set k v else o

/-- `schema["k"] = v` when an optional value is present. -/
def optSet (o : JObj) (k : String) : Option JVal → JObj
  | some v => o.set k v
  | none => o

/-- The `request` sub-object assembled by `openai_to_google` (before image
specialisation): `contents`, then conditionally `sessionId`,
`systemInstruction`, `generationConfig`, and `tools`/`toolConfig`. -/
def innerRequestObj (env : ConvEnv) (req : JObj) (sid : Option String) (now : Int)
    (sig : SigCacheState) (tn : ToolNameCacheState) : JObj :=
  let stF := extractStateOf env req sid now sig tn
  let inner0 := JObj.cons "contents" (jA (stF.contents.map entryToJVal)) .nil
  let inner1 := condSet inner0 (sid.getD "" != "") "sessionId" (.str (sid.getD ""))
  let inner2 := optSet inner1 "systemInstruction" (systemInstructionOf stF)
  let gc := buildGenerationConfig req (requestModel req)
    (is_enable_thinking (requestModel req))
  let inner3 := condSet inner2 (JVal.obj gc).truthy "generationConfig" (.obj gc)
  let hasTools := !(convertedToolsOf env req sid now sig tn).1.isEmpty
  condSet
    (condSet inner3 hasTools "tools" (jA (convertedToolsOf env req sid now sig tn).1))
    hasTools "toolConfig"
    (jO [("functionCallingConfig", jO [("mode", .str "VALIDATED")])])

/-- `RequestConverter.openai_to_google`: returns the Google request body and
URL suffix, plus the signature- and tool-name-cache states after conversion. -/
def outerObj (project_id requestUuid : String) (model : JVal) (inner : JObj) : JObj :=
  JObj.cons "project" (.str project_id)
    (JObj.cons "requestId" (.str ("agent-" ++ requestUuid))
     (JObj.cons "request" (.obj inner)
      (JObj.cons "model" model
       (JObj.cons "userAgent" (.str "antigravity") .nil))))

def openai_to_google (env : ConvEnv) (req : JObj) (project_id : String)
    (session_id : Option String) (now : Int) (requestUuid : String)
    (sig : SigCacheState) (tn : ToolNameCacheState) :
    (JVal × String) × SigCacheState × ToolNameCacheState :=
  let model := requestModel req
  let stream : JVal := (req.lookup "stream").getD (.bool false)
  let outer := outerObj project_id requestUuid model (innerRequestObj env req session_id now sig tn)
  let outer2 := if is_image_model model then prepare_image_request outer else outer
  let suffix :=
    if is_image_model model then "/v1internal:generateContent"
    else if stream.truthy then "/v1internal:streamGenerateContent?alt=sse"
    else "/v1internal:generateContent"
  ((.obj outer2, suffix), (extractStateOf env req session_id now sig tn).sig,
    (convertedToolsOf env req session_id now sig tn).2)

/-! ### Association-object lemmas used by the claim proofs -/

def JVal.getKey2 (v : JVal) (k1 k2 : String) : Option JVal :=
  match v.getKey k1 with
  | some w => w.getKey k2
  | none => none

def JObj.keys : JObj → List String
  | .nil => []
  | .cons k _ rest => k :: JObj.keys rest

theorem JObj.lookup_set_self : ∀ (o : JObj) (k : String) (v : JVal),
    (o.set k v).lookup k = some v
  | .nil, k, v => by simp [JObj.set, JObj.lookup]
  | .cons k0 v0 rest, k, v => by
    rw [JObj.set]
    by_cases hk : k0 = k
    · rw [if_pos hk, JObj.lookup, if_pos hk]
    · rw [if_neg hk, JObj.lookup, if_neg hk]
      exact JObj.lookup_set_self rest k v

theorem JObj.lookup_set_ne : ∀ (o : JObj) {k k2 : String} (v : JVal), k ≠ k2 →
    (o.set k v).lookup k2 = o.lookup k2
  | .nil, k, k2, v, h => by simp [JObj.set, JObj.lookup, h]
  | .cons k0 v0 rest, k, k2, v, h => by
    rw [JObj.set]
    by_cases hk : k0 = k
    · rw [if_pos hk, JObj.lookup, JObj.lookup,
        if_neg (fun he => h (hk ▸ he)), if_neg (fun he => h (hk ▸ he))]
    · rw [if_neg hk, JObj.lookup, JObj.lookup]
      by_cases hk2 : k0 = k2
      · rw [if_pos hk2, if_pos hk2]
      · rw [if_neg hk2, if_neg hk2]
        exact JObj.lookup_set_ne rest v h

theorem JObj.lookup_remove_ne : ∀ (o : JObj) {k k2 : String}, k ≠ k2 →
    (o.remove k).lookup k2 = o.lookup k2
  | .nil, k, k2, h => by simp [JObj.remove, JObj.lookup]
  | .cons k0 v0 rest, k, k2, h => by
    rw [JObj.remove]
    by_cases hk : k0 = k
    · rw [if_pos hk, JObj.lookup, if_neg (by rw [hk]; exact h)]
    · rw [if_neg hk, JObj.lookup, JObj.lookup]
      by_cases hk2 : k0 = k2
      · rw [if_pos hk2, if_pos hk2]
      · rw [if_neg hk2, if_neg hk2]
        exact JObj.lookup_remove_ne rest h

theorem JObj.lookup_none_of_not_mem_keys : ∀ {o : JObj} {k : String}, k ∉ o.keys →
    o.lookup k = none
  | .nil, k, _ => rfl
  | .cons k0 v0 rest, k, h => by
    rw [JObj.keys, List.mem_cons] at h
    push_neg at h
    rw [JObj.lookup, if_neg (fun he => h.1 he.symm)]
    exact JObj.lookup_none_of_not_mem_keys h.2

theorem JObj.keys_set_of_mem : ∀ {o : JObj} {k : String}, k ∈ o.keys → ∀ (v : JVal),
    (o.set k v).keys = o.keys
  | .nil, k, h, _ => by simp [JObj.keys] at h
  | .cons k0 v0 rest, k, h, v => by
    rw [JObj.set]
    by_cases hk : k0 = k
    · rw [if_pos hk, JObj.keys, JObj.keys]
    · rw [if_neg hk, JObj.keys, JObj.keys]
      rw [JObj.keys, List.mem_cons] at h
      rcases h with h | h
      · exact absurd h.symm hk
      · rw [JObj.keys_set_of_mem h v]

theorem JObj.keys_set_of_not_mem : ∀ {o : JObj} {k : String}, k ∉ o.keys → ∀ (v : JVal),
    (o.set k v).keys = o.keys ++ [k]
  | .nil, k, _, v => by simp [JObj.set, JObj.keys]
  | .cons k0 v0 rest, k, h, v => by
    rw [JObj.keys, List.mem_cons] at h
    push_neg at h
    rw [JObj.set, if_neg (fun he => h.1 he.symm), JObj.keys, JObj.keys,
      JObj.keys_set_of_not_mem h.2 v]
    rfl

theorem JObj.keys_nodup_set {o : JObj} (h : o.keys.Nodup) (k : String) (v : JVal) :
    (o.set k v).keys.Nodup := by
  by_cases hmem : k ∈ o.keys
  · rw [JObj.keys_set_of_mem hmem]; exact h
  · rw [JObj.keys_set_of_not_mem hmem]
    rw [List.nodup_append]
    exact ⟨h, List.nodup_singleton k, by simpa using hmem⟩

theorem JObj.keys_remove_sublist : ∀ (o : JObj) (k : String),
    (o.remove k).keys.Sublist o.keys
  | .nil, k => by simp [JObj.remove, JObj.keys]
  | .cons k0 v0 rest, k => by
    rw [JObj.remove]
    by_cases hk : k0 = k
    · rw [if_pos hk, JObj.keys]
      exact List.sublist_cons_self _ _
    · rw [if_neg hk, JObj.keys, JObj.keys]
      exact (JObj.keys_remove_sublist rest k).cons₂ k0

theorem JObj.keys_nodup_remove {o : JObj} (h : o.keys.Nodup) (k : String) :
    (o.remove k).keys.Nodup :=
  (JObj.keys_remove_sublist o k).nodup h

theorem JObj.lookup_remove_self : ∀ {o : JObj}, o.keys.Nodup → ∀ (k : String),
    (o.remove k).lookup k = none
  | .nil, _, _ => rfl
  | .cons k0 v0 rest, h, k => by
    rw [JObj.keys, List.nodup_cons] at h
    rw [JObj.remove]
    by_cases hk : k0 = k
    · rw [if_pos hk]
      apply JObj.lookup_none_of_not_mem_keys
      rw [← hk]
      exact h.1
    · rw [if_neg hk, JObj.lookup, if_neg hk]
      exact JObj.lookup_remove_self h.2 k

theorem condSet_lookup_ne (o : JObj) (c : Bool) {k k2 : String} (v : JVal) (h : k ≠ k2) :
    (condSet o c k v).lookup k2 = o.lookup k2 := by
  cases c <;> simp [condSet, JObj.lookup_set_ne o v h]

theorem optSet_lookup_ne (o : JObj) {k k2 : String} (ov : Option JVal) (h : k ≠ k2) :
    (optSet o k ov).lookup k2 = o.lookup k2 := by
  cases ov <;> simp [optSet, JObj.lookup_set_ne o _ h]

theorem condSet_keys_nodup {o : JObj} (h : o.keys.Nodup) (c : Bool) (k : String) (v : JVal) :
    (condSet o c k v).keys.Nodup := by
  cases c
  · exact h
  · exact JObj.keys_nodup_set h k v

theorem optSet_keys_nodup {o : JObj} (h : o.keys.Nodup) (k : String) (ov : Option JVal) :
    (optSet o k ov).keys.Nodup := by
  cases ov
  · exact h
  · exact JObj.keys_nodup_set h k _

theorem innerRequestObj_keys_nodup (env : ConvEnv) (req : JObj) (sid : Option String)
    (now : Int) (sig : SigCacheState) (tn : ToolNameCacheState) :
    (innerRequestObj env req sid now sig tn).keys.Nodup := by
  rw [innerRequestObj]
  apply condSet_keys_nodup
  apply condSet_keys_nodup
  apply condSet_keys_nodup
  apply optSet_keys_nodup
  apply condSet_keys_nodup
  simp [JObj.keys]

theorem innerRequestObj_lookup_tools_of_empty (env : ConvEnv) (req : JObj)
    (sid : Option String) (now : Int) (sig : SigCacheState) (tn : ToolNameCacheState)
    (hconv : (convertedToolsOf env req sid now sig tn).1.isEmpty = true) :
    (innerRequestObj env req sid now sig tn).lookup "tools" = none := by
  rw [innerRequestObj]
  simp only [hconv, Bool.not_true]
  rw [condSet_lookup_ne _ _ _ (by decide)]
  rw [condSet]
  simp only [Bool.false_eq_true, if_false]
  rw [condSet_lookup_ne _ _ _ (by decide)]
  rw [optSet_lookup_ne _ _ (by decide)]
  rw [condSet_lookup_ne _ _ _ (by decide)]
  rw [JObj.lookup]
  rw [if_neg (by decide)]
  rfl

theorem innerRequestObj_lookups_of_nonempty (env : ConvEnv) (req : JObj)
    (sid : Option String) (now : Int) (sig : SigCacheState) (tn : ToolNameCacheState)
    (hconv : (convertedToolsOf env req sid now sig tn).1.isEmpty = false) :
    (innerRequestObj env req sid now sig tn).lookup "toolConfig"
        = some (jO [("functionCallingConfig", jO [("mode", .str "VALIDATED")])])
    ∧ (innerRequestObj env req sid now sig tn).lookup "tools"
        = some (jA (convertedToolsOf env req sid now sig tn).1) := by
  rw [innerRequestObj]
  simp only [hconv, Bool.not_false]
  constructor
  · rw [condSet]
    simp only [if_true]
    exact JObj.lookup_set_self _ _ _
  · rw [condSet_lookup_ne _ _ _ (by decide)]
    rw [condSet]
    simp only [if_true]
    exact JObj.lookup_set_self _ _ _

theorem toList_ofList (l : List JVal) : (JArr.ofList l).toList = l := by
  induction l with
  | nil => rfl
  | cons x rest ih => rw [JArr.ofList, JArr.toList, ih]

theorem convertedToolsOf_names_ok (env : ConvEnv) (req : JObj) (sid : Option String)
    (now : Int) (sig : SigCacheState) (tn : ToolNameCacheState) :
    allToolNamesOk (jA (convertedToolsOf env req sid now sig tn).1) = true := by
  rw [jA, allToolNamesOk, toList_ofList, convertedToolsOf]
  exact convert_tools_names_ok _ _ _ _ _

theorem openai_to_google_body (env : ConvEnv) (req : JObj) (pid : String)
    (sid : Option String) (now : Int) (rid : String) (sig : SigCacheState)
    (tn : ToolNameCacheState) :
    (openai_to_google env req pid sid now rid sig tn).1.1
    = .obj (if is_image_model (requestModel req) = true then
        prepare_image_request (outerObj pid rid (requestModel req)
          (innerRequestObj env req sid now sig tn))
      else outerObj pid rid (requestModel req) (innerRequestObj env req sid now sig tn)) := rfl

theorem getKey2_outerObj (pid rid : String) (model : JVal) (inner : JObj) (k : String) :
    JVal.getKey2 (.obj (outerObj pid rid model inner)) "request" k = inner.lookup k := rfl

theorem prepare_image_request_outerObj (pid rid : String) (model : JVal) (inner : JObj) :
    prepare_image_request (outerObj pid rid model inner)
    = ((outerObj pid rid model inner).set "requestType" (.str "image_gen")).set "request"
        (.obj ((((inner.set "generationConfig" (jO [("candidateCount", .num 1)])).remove
          "systemInstruction").remove "tools").remove "toolConfig")) := rfl

theorem getKey2_set_request (y : JObj) (r1 : JObj) (k : String) :
    JVal.getKey2 (.obj (y.set "request" (.obj r1))) "request" k = r1.lookup k := by
  rw [JVal.getKey2]
  have h1 := JObj.lookup_set_self y "request" (.obj r1)
  simp [JVal.getKey, h1]

/-- C3 as amended: whenever the conversion actually emits a `tools` array into
the internal body (at least one `type == "function"` tool survives schema
validation and the model is not an image model — otherwise `tools` and
`toolConfig` are omitted or stripped), the body also carries
`toolConfig.functionCallingConfig.mode == "VALIDATED"`, and every tool name
declared in the emitted array matches `^[A-Za-z0-9_-]{1,128}$`. -/
theorem openai_to_google_toolconfig_validated (env : ConvEnv) (req : JObj)
    (pid : String) (sid : Option String) (now : Int) (rid : String)
    (sig : SigCacheState) (tn : ToolNameCacheState) (ts : JVal)
    (hts : JVal.getKey2 (openai_to_google env req pid sid now rid sig tn).1.1
        "request" "tools" = some ts) :
    JVal.getKey2 (openai_to_google env req pid sid now rid sig tn).1.1
        "request" "toolConfig"
      = some (jO [("functionCallingConfig", jO [("mode", .str "VALIDATED")])])
    ∧ allToolNamesOk ts = true := by
  rw [openai_to_google_body] at hts ⊢
  by_cases himg : is_image_model (requestModel req) = true
  · exfalso
    rw [if_pos himg, prepare_image_request_outerObj, getKey2_set_request] at hts
    rw [JObj.lookup_remove_ne _ (by decide)] at hts
    rw [JObj.lookup_remove_self
      (JObj.keys_nodup_remove
        (JObj.keys_nodup_set (innerRequestObj_keys_nodup env req sid now sig tn) _ _) _)
      "tools"] at hts
    exact Option.noConfusion hts
  · rw [if_neg himg, getKey2_outerObj] at hts ⊢
    by_cases hconv : (convertedToolsOf env req sid now sig tn).1.isEmpty = true
    · rw [innerRequestObj_lookup_tools_of_empty env req sid now sig tn hconv] at hts
      exact Option.noConfusion hts
    · obtain ⟨h1, h2⟩ := innerRequestObj_lookups_of_nonempty env req sid now sig tn
        (by simpa using hconv)
    
      rw [h2] at hts
      injection hts with hts2
      subst hts2
      exact ⟨h1, convertedToolsOf_names_ok env req sid now sig tn⟩

/-- The environment used by concrete evaluations: a parser that always fails,
a trivial serialiser, and a fixed uuid stream. -/
def demoConvEnv : ConvEnv :=
  ⟨fun _ => none, fun _ => "", fun _ => "0123456789abcdef"⟩

/-- A request whose `tools` list is non-empty but contains no
`type == "function"` entry. -/
def c3Req : JObj :=
  JObj.ofList [("model", .str "gemini-2.5-flash"), ("messages", jA []),
    ("tools", jA [jO [("type", .str "retrieval")]])]

/-- C3 counterexample: this request has a non-empty `tools` list, yet the
produced internal body carries no `toolConfig` at all (the only tool is
skipped, `google_tools` is empty, and the `if google_tools:` guard never
attaches the config), contradicting the claim as stated. -/
theorem tools_nonempty_but_no_toolconfig :
    c3Req.lookup "tools" = some (jA [jO [("type", .str "retrieval")]])
    ∧ JVal.getKey2 (openai_to_google demoConvEnv c3Req "proj" none 0 "rid"
        sigInit tnInit).1.1 "request" "toolConfig" = none := ⟨rfl, rfl⟩

/-- Witness for the amended C3 at a request with one surviving function
tool. -/
def c3GoodReq : JObj :=
  JObj.ofList [("model", .str "gemini-2.5-flash"), ("messages", jA []),
    ("tools", jA [jO [("type", .str "function"),
      ("function", jO [("name", .str "get weather!"),
        ("parameters", jO [("type", .str "object"), ("properties", jO [])])])]])]

theorem openai_to_google_toolconfig_validated_witness :
    JVal.getKey2 (openai_to_google demoConvEnv c3GoodReq "proj" none 0 "rid"
        sigInit tnInit).1.1 "request" "toolConfig"
      = some (jO [("functionCallingConfig", jO [("mode", .str "VALIDATED")])])
    ∧ allToolNamesOk
        ((JVal.getKey2 (openai_to_google demoConvEnv c3GoodReq "proj" none 0 "rid"
          sigInit tnInit).1.1 "request" "tools").getD .null) = true := by
  have h := openai_to_google_toolconfig_validated demoConvEnv c3GoodReq "proj" none 0 "rid"
    sigInit tnInit
    ((JVal.getKey2 (openai_to_google demoConvEnv c3GoodReq "proj" none 0 "rid"
      sigInit tnInit).1.1 "request" "tools").getD .null)
    (by rfl)
  exact ⟨h.1, h.2⟩

/-! ### C4: attachment of `tool` messages -/

/-- The claim's condition: the entry's LAST part is a functionResponse. -/
def lastPartHasFR (parts : List JVal) : Bool :=
  match parts.getLast? with
  | some p => partHasFR p
  | none => false

/-- Invariant relating the code's `any` test to the claim's last-part test on
user entries. -/
def entryFRConsistent (e : ContentEntry) : Prop :=
  e.role = "user" → e.parts.any partHasFR = lastPartHasFR e.parts

theorem isStrEq_some_str {v : Option JVal} {s : String} (h : JVal.isStrEq v s = true) :
    v = some (.str s) := by
  match v with
  | some (.str t) =>
    rw [JVal.isStrEq] at h
    simp at h
    rw [h]
  | some .null | some (.bool _) | some (.num _) | some (.arr _) | some (.obj _) | none =>
    simp [JVal.isStrEq] at h

theorem partHasFR_imageUrlParts {item p : JVal} (h : p ∈ imageUrlParts item) :
    partHasFR p = false := by
  rw [imageUrlParts] at h
  split at h
  · split at h
    · simp only [List.mem_singleton] at h
      subst h
      simp [partHasFR, jO, JObj.ofList, JObj.hasKey, JObj.lookup]
    · simp at h
  · simp only [List.mem_singleton] at h
    subst h
    simp [partHasFR, jO, JObj.ofList, JObj.hasKey, JObj.lookup]

theorem partHasFR_convParts {items : List JVal} {p : JVal} (h : p ∈ convParts items) :
    partHasFR p = false := by
  induction items with
  | nil => simp [convParts] at h
  | cons item rest ih =>
    rw [convParts, List.mem_append] at h
    rcases h with h | h
    · split at h
      · simp only [List.mem_singleton] at h
        subst h
        simp [partHasFR, jO, JObj.ofList, JObj.hasKey, JObj.lookup]
      · split at h
        · exact partHasFR_imageUrlParts h
        · simp at h
    · exact ih h

theorem partHasFR_convert_content {content p : JVal}
    (h : p ∈ convert_content_to_parts content) : partHasFR p = false := by
  match content with
  | .str s =>
    simp only [convert_content_to_parts, List.mem_singleton] at h
    subst h
    simp [partHasFR, jO, JObj.ofList, JObj.hasKey, JObj.lookup]
  | .obj fs =>
    rw [convert_content_to_parts] at h
    split at h <;>
      (simp only [List.mem_singleton] at h
       subst h
       simp [partHasFR, jO, JObj.ofList, JObj.hasKey, JObj.lookup])
  | .arr items =>
    rw [convert_content_to_parts] at h
    split at h
    · simp only [List.mem_singleton] at h
      subst h
      simp [partHasFR, jO, JObj.ofList, JObj.hasKey, JObj.lookup]
    · exact partHasFR_convParts h
  | .null | .bool _ | .num _ =>
    simp only [convert_content_to_parts, List.mem_singleton] at h
    subst h
    simp [partHasFR, jO, JObj.ofList, JObj.hasKey, JObj.lookup]

theorem entryFRConsistent_of_no_fr {e : ContentEntry}
    (h : ∀ p ∈ e.parts, partHasFR p = false) : entryFRConsistent e := by
  intro _
  have hany : e.parts.any partHasFR = false := by
    rw [List.any_eq_false]
    intro p hp
    simp [h p hp]
  rw [hany, lastPartHasFR]
  match hl : e.parts.getLast? with
  | none => rfl
  | some p =>
    have hmem : p ∈ e.parts :=
      List.mem_of_mem_getLast? (show p ∈ e.parts.getLast? by rw [hl]; rfl)
    show false = partHasFR p
    rw [h p hmem]

theorem partHasFR_convert_tool_message (env : ConvEnv) (msg : JVal)
    (tm : List (JVal × ToolCallInfo)) :
    partHasFR (convert_tool_message env msg tm) = true := by
  rw [convert_tool_message]
  simp [partHasFR, jO, JObj.ofList, JObj.hasKey, JObj.lookup]

theorem entryFRConsistent_user_concat {role : String} {parts : List JVal} {fr : JVal}
    (hfr : partHasFR fr = true) :
    entryFRConsistent ⟨role, parts ++ [fr]⟩ := by
  intro _
  have hany : (parts ++ [fr]).any partHasFR = true := by
    rw [List.any_eq_true]
    exact ⟨fr, by simp, hfr⟩
  rw [hany, lastPartHasFR]
  rw [List.getLast?_concat]
  show true = partHasFR fr
  rw [hfr]

theorem entryFRConsistent_user_singleton {role : String} {fr : JVal}
    (hfr : partHasFR fr = true) : entryFRConsistent ⟨role, [fr]⟩ := by
  intro _
  simp [lastPartHasFR, hfr]

theorem extractStep_preserves_inv (env : ConvEnv) (model : JVal) (sid : Option String)
    (enableThinking : Bool) (now : Int) (st : ExtractState) (msg : JVal)
    (h : ∀ e ∈ st.contents, entryFRConsistent e) :
    ∀ e ∈ (extractStep env model sid enableThinking now st msg).contents,
      entryFRConsistent e := by
  rw [extractStep]
  split
  · exact h
  · split
    · intro e he
      rw [List.mem_append] at he
      rcases he with he | he
      · exact h e he
      · simp only [List.mem_singleton] at he
        subst he
        exact entryFRConsistent_of_no_fr (fun p hp => partHasFR_convert_content hp)
    · split
      · -- assistant branch: appends a "model" entry
        rw [assistantStep]
        intro e he
        simp only at he
        rw [List.mem_append] at he
        rcases he with he | he
        · exact h e he
        · simp only [List.mem_singleton] at he
          subst he
          intro hrole
          simp at hrole
      · split
        · -- tool branch
          rw [toolMsgStep]
          split
          · split
            · intro e he
              simp only at he
              rw [List.mem_append] at he
              rcases he with he | he
              · exact h e ((List.dropLast_sublist _).subset he)
              · simp only [List.mem_singleton] at he
                subst he
                exact entryFRConsistent_user_concat
                  (partHasFR_convert_tool_message env msg _)
            · intro e he
              simp only at he
              rw [List.mem_append] at he
              rcases he with he | he
              · exact h e he
              · simp only [List.mem_singleton] at he
                subst he
                exact entryFRConsistent_user_singleton
                  (partHasFR_convert_tool_message env msg _)
          · intro e he
            simp only at he
            rw [List.mem_append] at he
            rcases he with he | he
            · exact h e he
            · simp only [List.mem_singleton] at he
              subst he
              exact entryFRConsistent_user_singleton
                (partHasFR_convert_tool_message env msg _)
        · intro e he
          simp only at he
          rw [List.mem_append] at he
          rcases he with he | he
          · exact h e he
          · simp only [List.mem_singleton] at he
            subst he
            exact entryFRConsistent_of_no_fr (fun p hp => partHasFR_convert_content hp)

theorem extractFold_inv (env : ConvEnv) (model : JVal) (sid : Option String)
    (enableThinking : Bool) (now : Int) (msgs : List JVal) (st : ExtractState)
    (h : ∀ e ∈ st.contents, entryFRConsistent e) :
    ∀ e ∈ (extractFold env model sid enableThinking now msgs st).contents,
      entryFRConsistent e := by
  induction msgs generalizing st with
  | nil => exact h
  | cons m rest ih =>
    rw [extractFold]
    exact ih _ (extractStep_preserves_inv env model sid enableThinking now st m h)

/-- The attachment rule in the claim's own words: append the functionResponse
part to the preceding user entry when that entry's last part is itself a
functionResponse, else start a new `user` entry carrying only that part. -/
def claimToolAttach (contents : List ContentEntry) (fr : JVal) : List ContentEntry :=
  match contents.getLast? with
  | some last =>
    if last.role = "user" ∧ lastPartHasFR last.parts = true then
      contents.dropLast ++ [⟨last.role, last.parts ++ [fr]⟩]
    else contents ++ [⟨"user", [fr]⟩]
  | none => contents ++ [⟨"user", [fr]⟩]

theorem toolMsgStep_claim (env : ConvEnv) (msg : JVal) (st : ExtractState)
    (hinv : ∀ e ∈ st.contents, entryFRConsistent e) :
    (toolMsgStep env msg st).contents
      = claimToolAttach st.contents (convert_tool_message env msg st.toolMap) := by
  cases hl : st.contents.getLast? with
  | none => simp only [toolMsgStep, claimToolAttach, hl]
  | some last =>
    have hmem : last ∈ st.contents :=
      List.mem_of_mem_getLast? (show last ∈ st.contents.getLast? by rw [hl]; rfl)
    have hcons := hinv last hmem
    simp only [toolMsgStep, claimToolAttach, hl]
    by_cases hc : last.role = "user" ∧ lastPartHasFR last.parts = true
    · rw [if_pos ⟨hc.1, (hcons hc.1).trans hc.2⟩, if_pos hc]
    · rw [if_neg (fun hcode => hc ⟨hcode.1, ((hcons hcode.1).symm.trans hcode.2)⟩),
        if_neg hc]

/-- C4: in the message walk of `extract_system_instruction`, every `tool`-role
message becomes a functionResponse part; for every module state reachable from
the initial state, that part is appended to the preceding user entry exactly
when that entry's last part is also a functionResponse, and otherwise starts a
new `user` entry whose parts list holds only that part. -/
theorem tool_message_attachment (env : ConvEnv) (model : JVal) (sid : Option String)
    (enableThinking : Bool) (now : Int) (msgs : List JVal)
    (sig0 : SigCacheState) (tn0 : ToolNameCacheState) (msg : JVal) (st : ExtractState)
    (hst : st = extractFold env model sid enableThinking now msgs
      (initExtractState sig0 tn0))
    (hrole : JVal.isStrEq (msg.getKey "role") "tool" = true) :
    partHasFR (convert_tool_message env msg st.toolMap) = true ∧
    (extractStep env model sid enableThinking now st msg).contents
      = claimToolAttach st.contents (convert_tool_message env msg st.toolMap) := by
  refine ⟨partHasFR_convert_tool_message env msg _, ?_⟩
  have hinv : ∀ e ∈ st.contents, entryFRConsistent e := by
    rw [hst]
    exact extractFold_inv env model sid enableThinking now msgs _
      (by intro e he; simp [initExtractState] at he)
  have hr : msg.getKey "role" = some (.str "tool") := isStrEq_some_str hrole
  have hstep : extractStep env model sid enableThinking now st msg
      = toolMsgStep env msg { st with collecting := false } := by
    rw [extractStep, hr]
    rfl
  rw [hstep]
  exact toolMsgStep_claim env msg { st with collecting := false } hinv

def c4ToolMsg : JVal :=
  jO [("role", .str "tool"), ("tool_call_id", .str "call_1"), ("content", .str "ok")]

def c4Msgs : List JVal :=
  [jO [("role", .str "user"), ("content", .str "hi")]]

theorem tool_message_attachment_witness :
    partHasFR (convert_tool_message demoConvEnv c4ToolMsg
      (extractFold demoConvEnv (.str "m") none false 0 c4Msgs
        (initExtractState sigInit tnInit)).toolMap) = true ∧
    (extractStep demoConvEnv (.str "m") none false 0
      (extractFold demoConvEnv (.str "m") none false 0 c4Msgs
        (initExtractState sigInit tnInit)) c4ToolMsg).contents
      = claimToolAttach
          (extractFold demoConvEnv (.str "m") none false 0 c4Msgs
            (initExtractState sigInit tnInit)).contents
          (convert_tool_message demoConvEnv c4ToolMsg
            (extractFold demoConvEnv (.str "m") none false 0 c4Msgs
              (initExtractState sigInit tnInit)).toolMap) :=
  tool_message_attachment demoConvEnv (.str "m") none false 0 c4Msgs
    sigInit tnInit c4ToolMsg _ rfl (by rfl)

/-! ### C10: non-stream response conversion (`ResponseConverter.google_non_stream_to_openai`) -/

/-- Environment of the response converter: `json.dumps`, fresh uuid hex draws
(one per counter value), and `save_base64_image` (`none` models a raised
exception, which the code logs and swallows). -/
structure RespEnv where
  jsonDumps : JVal → String
  genHex : Nat → String
  saveImage : String → Option String → Option String

/-- Python `d.get(k, default)`; raises `AttributeError` on a non-dict. -/
def dictGet : JVal → String → JVal → Except String JVal
  | .obj fs, k, d => .ok ((fs.lookup k).getD d)
  | _, _, _ => .error "AttributeError: get"

/-- `ResponseConverter.map_finish_reason`. -/
def map_finish_reason (googleReason : JVal) : String :=
  match googleReason with
  | .str "STOP" => "stop"
  | .str "MAX_TOKENS" => "length"
  | .str "SAFETY" => "content_filter"
  | .str "RECITATION" => "content_filter"
  | .str "OTHER" => "stop"
  | _ => "stop"

/-- Truthiness of an optional string (Python `if session_id:` etc.). -/
def optStrTruthy : Option String → Bool
  | some s => s ≠ ""
  | none => false

/-- `part.get("thought") is True`. -/
def isThoughtTrue (fs : JObj) : Bool :=
  match fs.lookup "thought" with
  | some (.bool true) => true
  | _ => false

/-- `sig = part.get("thoughtSignature"); if isinstance(sig, str) and sig: ...`. -/
def sigUpdate (fs : JObj) (cur : Option String) : Option String :=
  match fs.lookup "thoughtSignature" with
  | some (.str s) => if s ≠ "" then some s else cur
  | _ => cur

/-- Accumulator of the per-part loop of one candidate. -/
structure PartAcc where
  textParts : List String
  reasoningParts : List String
  toolCalls : List JVal
  imageUrls : List String
  reasoningSig : Option String
  sig : SigCacheState
  tn : ToolNameCacheState
  ctr : Nat

/-- One iteration of the `for part in parts` loop. -/
def partStep (env : RespEnv) (sid : Option String) (model : String)
    (imageBaseUrl : Option String) (now : Int) (acc : PartAcc) (part : JVal) :
    Except String PartAcc :=
  match part with
  | .obj fs =>
    if isThoughtTrue fs then
      match fs.lookup "text" with
      | some (.str s) =>
        .ok { acc with reasoningParts := acc.reasoningParts ++ [s],
                       reasoningSig := sigUpdate fs acc.reasoningSig }
      | none =>
        .ok { acc with reasoningParts := acc.reasoningParts ++ [""],
                       reasoningSig := sigUpdate fs acc.reasoningSig }
      | some _ => .error "TypeError: join"
    else if fs.hasKey "text" then
      match fs.lookup "text" with
      | some (.str s) => .ok { acc with textParts := acc.textParts ++ [s] }
      | some _ => .error "TypeError: join"
      | none => .ok { acc with textParts := acc.textParts ++ [""] }
    else if fs.hasKey "functionCall" then
      match (if ((fs.lookup "functionCall").getD .null).truthy
             then (fs.lookup "functionCall").getD .null else jO []) with
      | .obj fc =>
        let tsV : JVal :=
          ((pyOr (fs.lookup "thoughtSignature") (fc.lookup "thoughtSignature")).getD .null)
        let idc : JVal × Nat :=
          match fc.lookup "id" with
          | some v =>
            if v.truthy then (v, acc.ctr)
            else (.str ("call_" ++ env.genHex acc.ctr), acc.ctr + 1)
          | none => (.str ("call_" ++ env.genHex acc.ctr), acc.ctr + 1)
        let name0 : JVal := (fc.lookup "name").getD (.str "")
        let lookupRes : Option String × ToolNameCacheState :=
          if optStrTruthy sid && name0.truthy then
            get_original_tool_name sid (some model) (some name0.pyStr) now acc.tn
          else (none, acc.tn)
        let name1 : JVal :=
          match lookupRes.1 with
          | some o => if o ≠ "" then .str o else name0
          | none => name0
        let entry0 : JObj := JObj.ofList
          [("id", idc.1), ("type", .str "function"),
           ("function", jO [("name", name1),
             ("arguments", .str (env.jsonDumps ((fc.lookup "args").getD (jO []))))])]
        let entry : JObj :=
          if tsV.truthy then entry0.set "thoughtSignature" tsV else entry0
        let sig1 : SigCacheState :=
          if tsV.truthy && optStrTruthy sid then
            set_tool_signature sid (some model) (some tsV.pyStr) now acc.sig
          else acc.sig
        .ok { acc with toolCalls := acc.toolCalls ++ [.obj entry],
                       sig := sig1, tn := lookupRes.2, ctr := idc.2 }
      | _ => .error "AttributeError: get"
    else if fs.hasKey "inlineData" then
      match (if ((fs.lookup "inlineData").getD .null).truthy
             then (fs.lookup "inlineData").getD .null else jO []) with
      | .obj ifs =>
        if ((ifs.lookup "data").getD .null).truthy = false then .ok acc
        else
          match env.saveImage ((ifs.lookup "data").getD .null).pyStr
              (match (ifs.lookup "mimeType").getD .null with
               | .null => none
               | v => some v.pyStr) with
          | some filename =>
            .ok { acc with
              imageUrls := acc.imageUrls ++
                [if rstripSlash (imageBaseUrl.getD "") ≠ "" then
                   rstripSlash (imageBaseUrl.getD "") ++ "/images/" ++ filename
                 else "/images/" ++ filename],
              reasoningSig := sigUpdate fs acc.reasoningSig }
          | none => .ok { acc with reasoningSig := sigUpdate fs acc.reasoningSig }
      | _ => .error "AttributeError: get"
    else if fs.hasKey "thoughtSignature" then
      .ok { acc with reasoningSig := sigUpdate fs acc.reasoningSig }
    else .ok acc
  | _ => .error "AttributeError: get"

def partsFold (env : RespEnv) (sid : Option String) (model : String)
    (imageBaseUrl : Option String) (now : Int) :
    List JVal → PartAcc → Except String PartAcc
  | [], acc => .ok acc
  | p :: rest, acc =>
    match partStep env sid model imageBaseUrl now acc p with
    | .ok acc1 => partsFold env sid model imageBaseUrl now rest acc1
    | .error e => .error e

/-- Processing of one candidate: run the part loop, then assemble `message`
and the choice dict; returns the choice together with the updated
`state_reasoning_signature`, caches and uuid counter. -/
def candidateStep (env : RespEnv) (sid : Option String) (model : String)
    (imageBaseUrl : Option String) (now : Int) (idx : Nat) (cand : JVal)
    (stateSig : Option String) (sig : SigCacheState) (tn : ToolNameCacheState)
    (ctr : Nat) :
    Except String (JVal × Option String × SigCacheState × ToolNameCacheState × Nat) :=
  match cand with
  | .obj cfs =>
    match (cfs.lookup "content").getD (jO []) with
    | .obj con =>
      match
        (match (con.lookup "parts").getD (.arr .nil) with
         | .arr ps => Except.ok ps.toList
         | .str s =>
           if s = "" then Except.ok [] else Except.error "AttributeError: get"
         | .obj fs2 =>
           if fs2.length = 0 then Except.ok [] else Except.error "AttributeError: get"
         | _ => (Except.error "TypeError: iteration" : Except String (List JVal))) with
      | .error e => .error e
      | .ok partsList =>
        match partsFold env sid model imageBaseUrl now partsList
            ⟨[], [], [], [], none, sig, tn, ctr⟩ with
        | .error e => .error e
        | .ok acc =>
          let contentText : String :=
            if acc.textParts.isEmpty then "" else strJoin "" acc.textParts
          let msg0 : JObj := JObj.ofList [("role", .str "assistant")]
          let msg1 : JObj :=
            if acc.imageUrls.isEmpty = false then
              msg0.set "content" (.str (strJoin "\n\n"
                ((if contentText ≠ "" then [contentText] else []) ++
                  acc.imageUrls.map (fun url => "![image](" ++ url ++ ")"))))
            else if contentText ≠ "" then msg0.set "content" (.str contentText)
            else msg0
          let msg2 : JObj :=
            if acc.reasoningParts.isEmpty = false then
              msg1.set "reasoning_content" (.str (strJoin "" acc.reasoningParts))
            else msg1
          let stateSig1 : Option String :=
            if optStrTruthy acc.reasoningSig then acc.reasoningSig else stateSig
          let sig1 : SigCacheState :=
            if optStrTruthy acc.reasoningSig && optStrTruthy sid then
              set_reasoning_signature sid (some model) acc.reasoningSig now acc.sig
            else acc.sig
          let msg3 : JObj :=
            if optStrTruthy stateSig1 &&
                (acc.reasoningParts.isEmpty = false || optStrTruthy acc.reasoningSig) then
              msg2.set "thoughtSignature" (.str (stateSig1.getD ""))
            else msg2
          let msg4 : JObj :=
            if acc.toolCalls.isEmpty = false then
              msg3.set "tool_calls" (.arr (JArr.ofList acc.toolCalls))
            else msg3
          .ok (jO [("index", .num (Int.ofNat idx)), ("message", .obj msg4),
                ("finish_reason", .str
                  (match cfs.lookup "finishReason" with
                   | some v => map_finish_reason v
                   | none => "stop"))],
               stateSig1, sig1, acc.tn, acc.ctr)
    | _ => .error "AttributeError: get"
  | _ => .error "AttributeError: get"

def choicesFold (env : RespEnv) (sid : Option String) (model : String)
    (imageBaseUrl : Option String) (now : Int) :
    List JVal → Nat → Option String → SigCacheState → ToolNameCacheState → Nat →
    Except String (List JVal × Option String × SigCacheState × ToolNameCacheState × Nat)
  | [], _, stateSig, sig, tn, ctr => .ok ([], stateSig, sig, tn, ctr)
  | c :: rest, idx, stateSig, sig, tn, ctr =>
    match candidateStep env sid model imageBaseUrl now idx c stateSig sig tn ctr with
    | .error e => .error e
    | .ok (choice, stateSig1, sig1, tn1, ctr1) =>
      match choicesFold env sid model imageBaseUrl now rest (idx + 1)
          stateSig1 sig1 tn1 ctr1 with
      | .error e => .error e
      | .ok (cs, s2, g2, t2, c2) => .ok (choice :: cs, s2, g2, t2, c2)

/-- Unwrapping of the optional top-level `"response"` wrapper, yielding the
`candidates` and `usageMetadata` values. -/
def unwrapData (g : JObj) : Except String (JVal × JVal) :=
  match g.lookup "response" with
  | some rd =>
    match dictGet rd "candidates" (.arr .nil) with
    | .error e => .error e
    | .ok c =>
      match dictGet rd "usageMetadata" (jO []) with
      | .error e => .error e
      | .ok u => .ok (c, u)
  | none =>
    .ok ((g.lookup "candidates").getD (.arr .nil),
         (g.lookup "usageMetadata").getD (jO []))

/-- `ResponseConverter.google_non_stream_to_openai`, threading the signature and
tool-name caches; `now` stands for both `int(time.time())` and the cache clock.
The uuid draw for the request id uses counter 0, the loop draws start at 1. -/
def google_non_stream_to_openai (env : RespEnv) (googleResponse : JObj)
    (model : String) (sid : Option String) (imageBaseUrl : Option String)
    (now : Int) (sig0 : SigCacheState) (tn0 : ToolNameCacheState) :
    Except String (JVal × SigCacheState × ToolNameCacheState) :=
  match unwrapData googleResponse with
  | .error e => .error e
  | .ok (candidates, usageMetadata) =>
    if candidates.truthy = true then
      match candidates with
      | .arr cs =>
        match choicesFold env sid model imageBaseUrl now cs.toList 0
            (if optStrTruthy sid then
               (get_reasoning_signature sid (some model) now sig0).1
             else none)
            (if optStrTruthy sid then
               (get_reasoning_signature sid (some model) now sig0).2
             else sig0) tn0 1 with
        | .error e => .error e
        | .ok (choices, _, sig2, tn2, _) =>
          match usageMetadata with
          | .obj um =>
            .ok (jO [("id", .str ("chatcmpl-" ++ env.genHex 0)),
                  ("object", .str "chat.completion"), ("created", .num now),
                  ("model", .str model),
                  ("choices", .arr (JArr.ofList choices)),
                  ("usage", jO
                    [("prompt_tokens", (um.lookup "promptTokenCount").getD (.num 0)),
                     ("completion_tokens",
                       (um.lookup "candidatesTokenCount").getD (.num 0)),
                     ("total_tokens", (um.lookup "totalTokenCount").getD (.num 0))])],
                 sig2, tn2)
          | _ => .error "AttributeError: get"
      | _ => .error "TypeError: iteration"
    else
      match usageMetadata with
      | .obj um =>
        .ok (jO [("id", .str ("chatcmpl-" ++ env.genHex 0)),
              ("object", .str "chat.completion"), ("created", .num now),
              ("model", .str model), ("choices", .arr .nil),
              ("usage", jO
                [("prompt_tokens", (um.lookup "promptTokenCount").getD (.num 0)),
                 ("completion_tokens", .num 0),
                 ("total_tokens", (um.lookup "promptTokenCount").getD (.num 0))])],
             (if optStrTruthy sid then
                (get_reasoning_signature sid (some model) now sig0).2
              else sig0), tn0)
      | _ => .error "AttributeError: get"

/-- C10: when the upstream non-stream response has no candidates after
unwrapping any top-level `"response"` wrapper (and its `usageMetadata` is a
dict), the converted OpenAI response has an empty `choices` list, zero
`completion_tokens`, and both `prompt_tokens` and `total_tokens` equal to
`usageMetadata.promptTokenCount` (defaulting to 0 when absent). -/
theorem google_non_stream_empty_candidates (env : RespEnv) (g : JObj)
    (model : String) (sid : Option String) (ibu : Option String) (now : Int)
    (sig0 : SigCacheState) (tn0 : ToolNameCacheState) (c u : JVal) (um : JObj)
    (hd : unwrapData g = .ok (c, u)) (hc : c.truthy = false) (hu : u = .obj um) :
    google_non_stream_to_openai env g model sid ibu now sig0 tn0
      = .ok (jO [("id", .str ("chatcmpl-" ++ env.genHex 0)),
          ("object", .str "chat.completion"), ("created", .num now),
          ("model", .str model), ("choices", .arr .nil),
          ("usage", jO
            [("prompt_tokens", (um.lookup "promptTokenCount").getD (.num 0)),
             ("completion_tokens", .num 0),
             ("total_tokens", (um.lookup "promptTokenCount").getD (.num 0))])],
        (if optStrTruthy sid then
           (get_reasoning_signature sid (some model) now sig0).2
         else sig0), tn0) := by
  rw [google_non_stream_to_openai, hd]
  show (if c.truthy = true then _ else _) = _
  rw [hc, if_neg (by simp), hu]

def demoRespEnv : RespEnv :=
  ⟨fun _ => "null", fun n => "0123456789abcdef01234567".take 24 ++ toString n,
   fun _ _ => none⟩

def c10Resp : JObj :=
  JObj.ofList [("response", jO [("usageMetadata", jO [("promptTokenCount", .num 7)])])]

theorem google_non_stream_empty_candidates_witness :
    unwrapData c10Resp
      = .ok (.arr .nil, jO [("promptTokenCount", .num 7)]) ∧
    google_non_stream_to_openai demoRespEnv c10Resp "gemini-2.5-pro" none none 5 sigInit tnInit
      = .ok (jO [("id", .str ("chatcmpl-" ++ demoRespEnv.genHex 0)),
          ("object", .str "chat.completion"), ("created", .num 5),
          ("model", .str "gemini-2.5-pro"), ("choices", .arr .nil),
          ("usage", jO [("prompt_tokens", .num 7), ("completion_tokens", .num 0),
            ("total_tokens", .num 7)])],
        sigInit, tnInit) :=
  ⟨rfl, google_non_stream_empty_candidates demoRespEnv c10Resp "gemini-2.5-pro"
    none none 5 sigInit tnInit (.arr .nil) (jO [("promptTokenCount", .num 7)])
    (JObj.ofList [("promptTokenCount", .num 7)]) rfl rfl rfl⟩

/-! ### C5: round-robin fairness of `get_next_project` -/

/-- Placeholder project used to totalise index lookups that are always guarded
by bounds proofs in the lemmas below. -/
def dummyProj : ProjectToken := ⟨"", "", none, none, false, none⟩

/-- The project stored at index `j` (total version). -/
def pjAt (ps : List ProjectToken) (j : Nat) : ProjectToken :=
  (ps[j]?).getD dummyProj

/-- Cursor advance of the rotation branch. -/
def nxt (ps : List ProjectToken) (j : Nat) : Nat :=
  advanceLoop ps j ps.length

/-- `a`-fold iteration of the cursor advance. -/
def nxtIter (ps : List ProjectToken) : Nat → Nat → Nat
  | 0, j => j
  | a + 1, j => nxtIter ps a (nxt ps j)

/-- The selections of `m` full rotation blocks starting at cursor `j`: each
block returns the project under the cursor `r` times, then the cursor advances
to the next enabled project. -/
def blockList (ps : List ProjectToken) (r : Nat) : Nat → Nat → List (ProjectToken × Nat)
  | 0, _ => []
  | m + 1, j => List.replicate r (pjAt ps j, j) ++ blockList ps r m (nxt ps j)

/-- The indices of the enabled projects, in increasing order. -/
def enabledIdx (ps : List ProjectToken) : List Nat :=
  (List.range ps.length).filter (fun i => enabledAt ps i)

theorem pjAt_eq {ps : List ProjectToken} {j : Nat} (hj : j < ps.length) :
    ps[j]? = some (pjAt ps j) := by
  rw [pjAt, List.getElem?_eq_getElem hj]
  rfl

theorem pjAt_enabled {ps : List ProjectToken} {j : Nat} (hj : enabledAt ps j = true) :
    (pjAt ps j).enabled = true := by
  have hlt := enabledAt_lt hj
  rw [enabledAt, pjAt_eq hlt] at hj
  simpa using hj

theorem pickRun_error {r : Nat} {s : PoolState} {e : String}
    (hg : get_next_project r s = .error e) : ∀ b, pickRun r s b = ([], s)
  | 0 => rfl
  | b + 1 => by simp [pickRun, hg]

theorem pickRun_add (r : Nat) : ∀ (a b : Nat) (s : PoolState),
    pickRun r s (a + b)
      = ((pickRun r s a).1 ++ (pickRun r (pickRun r s a).2 b).1,
         (pickRun r (pickRun r s a).2 b).2) := by
  intro a
  induction a with
  | zero =>
    intro b s
    rw [Nat.zero_add]
    simp [pickRun]
  | succ a ih =>
    intro b s
    have h1 : a + 1 + b = (a + b) + 1 := by omega
    rw [h1]
    cases hg : get_next_project r s with
    | error e =>
      simp only [pickRun, hg]
      rw [pickRun_error hg b]
      rfl
    | ok v =>
      obtain ⟨p, s1⟩ := v
      simp only [pickRun, hg]
      rw [ih b s1]
      simp

theorem get_next_steady {r : Nat} {ps : List ProjectToken} {j c : Nat}
    (hj : j < ps.length) (hen : enabledAt ps j = true) (hc : c < r) :
    get_next_project r ⟨ps, j, c⟩ = .ok (pjAt ps j, ⟨ps, j, c + 1⟩) := by
  have hfil := filter_enabled_isEmpty_false
    ((exists_enabled_index_iff ps).mp ⟨j, hj, hen⟩)
  rw [get_next_project]
  rw [if_neg (by simp only; omega), if_neg (by simp [hfil]), if_neg (by simp only; omega)]
  rw [show (⟨ps, j, c⟩ : PoolState).projects = ps from rfl]
  rw [selectFrom_at_enabled c hj hen]
  have : ps[j] = pjAt ps j := by
    have := pjAt_eq hj
    rw [List.getElem?_eq_getElem hj] at this
    exact Option.some.inj this
  rw [this]

theorem get_next_rotate {r : Nat} {ps : List ProjectToken} {j : Nat}
    (hj : j < ps.length) (hen : enabledAt ps j = true) :
    get_next_project r ⟨ps, j, r⟩ = .ok (pjAt ps (nxt ps j), ⟨ps, nxt ps j, 1⟩) := by
  have hfil := filter_enabled_isEmpty_false
    ((exists_enabled_index_iff ps).mp ⟨j, hj, hen⟩)
  obtain ⟨hnen, hnlt⟩ := advanceLoop_enabled ps hj hj hen
  rw [get_next_project]
  rw [if_neg (by simp only; omega), if_neg (by simp [hfil]), if_pos (by simp only; omega)]
  rw [show (⟨ps, j, r⟩ : PoolState).projects = ps from rfl,
    show (⟨ps, j, r⟩ : PoolState).currentIndex = j from rfl]
  rw [selectFrom_at_enabled 0 hnlt hnen]
  have : ps[advanceLoop ps j ps.length] = pjAt ps (nxt ps j) := by
    have := pjAt_eq hnlt
    rw [List.getElem?_eq_getElem hnlt] at this
    exact Option.some.inj this
  rw [this]
  rfl

theorem pickRun_steady (r : Nat) {ps : List ProjectToken} {j : Nat}
    (hj : j < ps.length) (hen : enabledAt ps j = true) :
    ∀ (d c : Nat), c + d ≤ r →
      pickRun r ⟨ps, j, c⟩ d = (List.replicate d (pjAt ps j, j), ⟨ps, j, c + d⟩) := by
  intro d
  induction d with
  | zero =>
    intro c _
    simp [pickRun]
  | succ d ih =>
    intro c hcd
    rw [pickRun, get_next_steady hj hen (by omega)]
    show ((pjAt ps j, j) :: (pickRun r ⟨ps, j, c + 1⟩ d).1,
      (pickRun r ⟨ps, j, c + 1⟩ d).2) = _
    rw [ih (c + 1) (by omega)]
    rw [List.replicate_succ]
    refine congrArg₂ Prod.mk rfl ?_
    have : c + 1 + d = c + (d + 1) := by omega
    rw [this]

theorem pickRun_shift {r : Nat} {ps : List ProjectToken} {j : Nat}
    (hr : 0 < r) (hj : j < ps.length) (hen : enabledAt ps j = true) {t : Nat}
    (ht : 0 < t) :
    pickRun r ⟨ps, j, r⟩ t = pickRun r ⟨ps, nxt ps j, 0⟩ t := by
  obtain ⟨hnen0, hnlt0⟩ := advanceLoop_enabled ps hj hj hen
  have hnen : enabledAt ps (nxt ps j) = true := hnen0
  have hnlt : nxt ps j < ps.length := hnlt0
  obtain ⟨t1, rfl⟩ : ∃ u, t = u + 1 := ⟨t - 1, by omega⟩
  rw [pickRun, pickRun, get_next_rotate hj hen, get_next_steady hnlt hnen hr]

theorem pickRun_blocks (r : Nat) {ps : List ProjectToken} (hr : 0 < r) :
    ∀ (m j : Nat), j < ps.length → enabledAt ps j = true →
      (pickRun r ⟨ps, j, 0⟩ (m * r)).1 = blockList ps r m j := by
  intro m
  induction m with
  | zero =>
    intro j _ _
    rw [Nat.zero_mul]
    simp [pickRun, blockList]
  | succ m ih =>
    intro j hj hen
    obtain ⟨hnen, hnlt⟩ := advanceLoop_enabled ps hj hj hen
    have harg : (m + 1) * r = r + m * r := by ring
    rw [harg, pickRun_add]
    rw [pickRun_steady r hj hen r 0 (by omega)]
    rw [blockList]
    by_cases hm : m = 0
    · subst hm
      rw [Nat.zero_mul]
      simp [pickRun, blockList]
    · have hpos : 0 < m * r := Nat.mul_pos (by omega) hr
      show List.replicate r (pjAt ps j, j) ++ (pickRun r ⟨ps, j, 0 + r⟩ (m * r)).1 = _
      rw [Nat.zero_add, pickRun_shift hr hj hen hpos, ih (nxt ps j) hnlt hnen]

theorem countP_replicate {α : Type} (p : α → Bool) (r : Nat) (x : α) :
    (List.replicate r x).countP p = if p x then r else 0 := by
  induction r with
  | zero => simp
  | succ r ih => by_cases h : p x <;> simp [List.replicate_succ, List.countP_cons, h, ih]

theorem mem_enabledIdx {ps : List ProjectToken} {i : Nat} :
    i ∈ enabledIdx ps ↔ i < ps.length ∧ enabledAt ps i = true := by
  simp [enabledIdx, List.mem_filter, List.mem_range]

theorem enabledIdx_pairwise (ps : List ProjectToken) :
    (enabledIdx ps).Pairwise (· < ·) :=
  List.Pairwise.filter _ (List.pairwise_lt_range ps.length)

theorem enabledIdx_get_mono (ps : List ProjectToken) {u v : Nat}
    (hu : u < (enabledIdx ps).length) (hv : v < (enabledIdx ps).length) (huv : u < v) :
    (enabledIdx ps).get ⟨u, hu⟩ < (enabledIdx ps).get ⟨v, hv⟩ :=
  (List.pairwise_iff_get.mp (enabledIdx_pairwise ps)) ⟨u, hu⟩ ⟨v, hv⟩ huv

theorem enabledIdx_get_le (ps : List ProjectToken) {u v : Nat}
    (hu : u < (enabledIdx ps).length) (hv : v < (enabledIdx ps).length) (huv : u ≤ v) :
    (enabledIdx ps).get ⟨u, hu⟩ ≤ (enabledIdx ps).get ⟨v, hv⟩ := by
  rcases Nat.eq_or_lt_of_le huv with h | h
  · subst h
    exact Nat.le_refl _
  · exact Nat.le_of_lt (enabledIdx_get_mono ps hu hv h)

theorem enabledIdx_rank_lt (ps : List ProjectToken) {u v : Nat}
    (hu : u < (enabledIdx ps).length) (hv : v < (enabledIdx ps).length)
    (h : (enabledIdx ps).get ⟨u, hu⟩ < (enabledIdx ps).get ⟨v, hv⟩) : u < v := by
  by_contra hc
  have := enabledIdx_get_le ps hv hu (by omega)
  omega

theorem list_get_eq_of_idx_eq (l : List Nat) {i j : Nat} (hi : i < l.length)
    (hj : j < l.length) (h : i = j) : l.get ⟨i, hi⟩ = l.get ⟨j, hj⟩ := by
  subst h
  rfl

theorem nxt_get (ps : List ProjectToken) {t : Nat}
    (ht : t < (enabledIdx ps).length) :
    nxt ps ((enabledIdx ps).get ⟨t, ht⟩)
      = (enabledIdx ps).get
          ⟨(t + 1) % (enabledIdx ps).length, Nat.mod_lt _ (by omega)⟩ := by
  obtain ⟨hjlt, hjen⟩ := mem_enabledIdx.mp
    (List.get_mem (enabledIdx ps) t ht)
  by_cases htn : t + 1 < (enabledIdx ps).length
  · obtain ⟨hj2lt, hj2en⟩ := mem_enabledIdx.mp
      (List.get_mem (enabledIdx ps) (t + 1) htn)
    have hjj : (enabledIdx ps).get ⟨t, ht⟩ < (enabledIdx ps).get ⟨t + 1, htn⟩ :=
      enabledIdx_get_mono ps ht htn (by omega)
    have hd : nxt ps ((enabledIdx ps).get ⟨t, ht⟩)
        = ((enabledIdx ps).get ⟨t, ht⟩
            + ((enabledIdx ps).get ⟨t + 1, htn⟩ - (enabledIdx ps).get ⟨t, ht⟩))
          % ps.length := by
      apply advanceLoop_spec ps _ _ ps.length (by omega) (by omega)
      · rw [show (enabledIdx ps).get ⟨t, ht⟩
            + ((enabledIdx ps).get ⟨t + 1, htn⟩ - (enabledIdx ps).get ⟨t, ht⟩)
            = (enabledIdx ps).get ⟨t + 1, htn⟩ from by omega,
          Nat.mod_eq_of_lt hj2lt]
        exact hj2en
      · intro e he0 hed
        have hlt : (enabledIdx ps).get ⟨t, ht⟩ + e < ps.length := by omega
        rw [Nat.mod_eq_of_lt hlt]
        by_contra hcon
        simp only [Bool.not_eq_false] at hcon
        obtain ⟨⟨u, hu⟩, hgu⟩ := List.get_of_mem
          (mem_enabledIdx.mpr ⟨hlt, hcon⟩)
        have h1 : t < u := enabledIdx_rank_lt ps ht hu (by omega)
        have h2 : u < t + 1 := enabledIdx_rank_lt ps hu htn (by omega)
        omega
    rw [hd, show ((enabledIdx ps).get ⟨t, ht⟩
          + ((enabledIdx ps).get ⟨t + 1, htn⟩ - (enabledIdx ps).get ⟨t, ht⟩))
          % ps.length = (enabledIdx ps).get ⟨t + 1, htn⟩ from by
        rw [show (enabledIdx ps).get ⟨t, ht⟩
            + ((enabledIdx ps).get ⟨t + 1, htn⟩ - (enabledIdx ps).get ⟨t, ht⟩)
            = (enabledIdx ps).get ⟨t + 1, htn⟩ from by omega]
        exact Nat.mod_eq_of_lt hj2lt]
    exact list_get_eq_of_idx_eq _ htn _ (Nat.mod_eq_of_lt htn).symm
  · have htn1 : t + 1 = (enabledIdx ps).length := by omega
    have h0lt : 0 < (enabledIdx ps).length := by omega
    obtain ⟨hj0lt, hj0en⟩ := mem_enabledIdx.mp
      (List.get_mem (enabledIdx ps) 0 h0lt)
    have hj0le : (enabledIdx ps).get ⟨0, h0lt⟩ ≤ (enabledIdx ps).get ⟨t, ht⟩ :=
      enabledIdx_get_le ps h0lt ht (by omega)
    have hd : nxt ps ((enabledIdx ps).get ⟨t, ht⟩)
        = ((enabledIdx ps).get ⟨t, ht⟩
            + (ps.length - (enabledIdx ps).get ⟨t, ht⟩
                + (enabledIdx ps).get ⟨0, h0lt⟩))
          % ps.length := by
      apply advanceLoop_spec ps _ _ ps.length (by omega) (by omega)
      · rw [show (enabledIdx ps).get ⟨t, ht⟩
            + (ps.length - (enabledIdx ps).get ⟨t, ht⟩
                + (enabledIdx ps).get ⟨0, h0lt⟩)
            = ps.length + (enabledIdx ps).get ⟨0, h0lt⟩ from by omega,
          Nat.add_mod_left, Nat.mod_eq_of_lt hj0lt]
        exact hj0en
      · intro e he0 hed
        by_cases hje : (enabledIdx ps).get ⟨t, ht⟩ + e < ps.length
        · rw [Nat.mod_eq_of_lt hje]
          by_contra hcon
          simp only [Bool.not_eq_false] at hcon
          obtain ⟨⟨u, hu⟩, hgu⟩ := List.get_of_mem
            (mem_enabledIdx.mpr ⟨hje, hcon⟩)
          have h1 : t < u := enabledIdx_rank_lt ps ht hu (by omega)
          omega
        · rw [Nat.mod_eq_sub_mod (by omega), Nat.mod_eq_of_lt (by omega)]
          by_contra hcon
          simp only [Bool.not_eq_false] at hcon
          obtain ⟨⟨u, hu⟩, hgu⟩ := List.get_of_mem
            (mem_enabledIdx.mpr ⟨by omega, hcon⟩)
          have h1 : (enabledIdx ps).get ⟨0, h0lt⟩ ≤ (enabledIdx ps).get ⟨u, hu⟩ :=
            enabledIdx_get_le ps h0lt hu (by omega)
          omega
    rw [hd, show ((enabledIdx ps).get ⟨t, ht⟩
          + (ps.length - (enabledIdx ps).get ⟨t, ht⟩
              + (enabledIdx ps).get ⟨0, h0lt⟩))
          % ps.length = (enabledIdx ps).get ⟨0, h0lt⟩ from by
        rw [show (enabledIdx ps).get ⟨t, ht⟩
            + (ps.length - (enabledIdx ps).get ⟨t, ht⟩
                + (enabledIdx ps).get ⟨0, h0lt⟩)
            = ps.length + (enabledIdx ps).get ⟨0, h0lt⟩ from by omega]
        rw [Nat.add_mod_left]
        exact Nat.mod_eq_of_lt hj0lt]
    exact list_get_eq_of_idx_eq _ h0lt _ (by
      rw [htn1, Nat.mod_self] : (0 : Nat) = (t + 1) % (enabledIdx ps).length)

theorem nxtIter_get (ps : List ProjectToken) :
    ∀ (a t : Nat) (ht : t < (enabledIdx ps).length),
      nxtIter ps a ((enabledIdx ps).get ⟨t, ht⟩)
        = (enabledIdx ps).get
            ⟨(t + a) % (enabledIdx ps).length, Nat.mod_lt _ (by omega)⟩ := by
  intro a
  induction a with
  | zero =>
    intro t ht
    exact list_get_eq_of_idx_eq _ ht _ (by rw [Nat.add_zero, Nat.mod_eq_of_lt ht])
  | succ a ih =>
    intro t ht
    show nxtIter ps a (nxt ps ((enabledIdx ps).get ⟨t, ht⟩)) = _
    rw [nxt_get ps ht,
      ih ((t + 1) % (enabledIdx ps).length) (Nat.mod_lt _ (by omega))]
    exact list_get_eq_of_idx_eq _ (Nat.mod_lt _ (by omega)) _
      (by rw [Nat.mod_add_mod, show t + 1 + a = t + (a + 1) from by omega])

theorem blockList_add (ps : List ProjectToken) (r : Nat) :
    ∀ (a b j : Nat),
      blockList ps r (a + b) j
        = blockList ps r a j ++ blockList ps r b (nxtIter ps a j) := by
  intro a
  induction a with
  | zero =>
    intro b j
    rw [Nat.zero_add]
    rfl
  | succ a ih =>
    intro b j
    rw [show a + 1 + b = (a + b) + 1 from by omega]
    show List.replicate r (pjAt ps j, j) ++ blockList ps r (a + b) (nxt ps j) = _
    rw [ih b (nxt ps j)]
    rw [show blockList ps r (a + 1) j
        = List.replicate r (pjAt ps j, j) ++ blockList ps r a (nxt ps j) from rfl]
    rw [List.append_assoc]
    rfl

theorem blockList_mem (ps : List ProjectToken) (r : Nat) :
    ∀ (m j : Nat), j < ps.length → enabledAt ps j = true →
      ∀ pr ∈ blockList ps r m j, ps[pr.2]? = some pr.1 ∧ pr.1.enabled = true := by
  intro m
  induction m with
  | zero =>
    intro j _ _ pr hpr
    simp [blockList] at hpr
  | succ m ih =>
    intro j hj hen pr hpr
    rw [blockList, List.mem_append] at hpr
    rcases hpr with hpr | hpr
    · obtain ⟨-, rfl⟩ := List.mem_replicate.mp hpr
      exact ⟨pjAt_eq hj, pjAt_enabled hen⟩
    · obtain ⟨hnen, hnlt⟩ := advanceLoop_enabled ps hj hj hen
      exact ih (nxt ps j) hnlt hnen pr hpr

theorem enabledIdx_get_inj (ps : List ProjectToken) {u v : Nat}
    (hu : u < (enabledIdx ps).length) (hv : v < (enabledIdx ps).length)
    (h : (enabledIdx ps).get ⟨u, hu⟩ = (enabledIdx ps).get ⟨v, hv⟩) : u = v := by
  rcases Nat.lt_trichotomy u v with h1 | h1 | h1
  · have := enabledIdx_get_mono ps hu hv h1
    omega
  · exact h1
  · have := enabledIdx_get_mono ps hv hu h1
    omega

theorem countP_replicate_pair (r : Nat) (x : ProjectToken) (j u : Nat) :
    (List.replicate r (x, j)).countP (fun pr => pr.2 = u) = if j = u then r else 0 := by
  induction r with
  | zero => simp
  | succ r ih =>
    by_cases h : j = u
    · subst h
      simp [List.replicate_succ, List.countP_cons, ih]
    · simp [List.replicate_succ, List.countP_cons, h, ih]

theorem count_blockList_nowrap (ps : List ProjectToken) (r : Nat) :
    ∀ (m s : Nat) (hs : s < (enabledIdx ps).length),
      s + m ≤ (enabledIdx ps).length →
      ∀ (u : Nat) (hu : u < (enabledIdx ps).length),
      (blockList ps r m ((enabledIdx ps).get ⟨s, hs⟩)).countP
          (fun pr => pr.2 = (enabledIdx ps).get ⟨u, hu⟩)
        = if s ≤ u ∧ u < s + m then r else 0 := by
  intro m
  induction m with
  | zero =>
    intro s hs hsm u hu
    rw [if_neg (by omega)]
    rfl
  | succ m ih =>
    intro s hs hsm u hu
    rw [blockList, List.countP_append, countP_replicate_pair, nxt_get ps hs]
    have hsm2 : (s + 1) % (enabledIdx ps).length + m ≤ (enabledIdx ps).length := by
      by_cases hw : s + 1 < (enabledIdx ps).length
      · rw [Nat.mod_eq_of_lt hw]
        omega
      · rw [show s + 1 = (enabledIdx ps).length from by omega, Nat.mod_self]
        omega
    rw [ih ((s + 1) % (enabledIdx ps).length) (Nat.mod_lt _ (by omega)) hsm2 u hu]
    by_cases hw : s + 1 < (enabledIdx ps).length
    · rw [Nat.mod_eq_of_lt hw]
      by_cases h1 : (enabledIdx ps).get ⟨s, hs⟩ = (enabledIdx ps).get ⟨u, hu⟩
      · have hsu : s = u := enabledIdx_get_inj ps hs hu h1
        subst hsu
        rw [if_pos h1, if_neg (fun hcon => by omega), if_pos (by omega)]
        omega
      · have hsu : ¬ s = u := fun he => h1 (by subst he; rfl)
        rw [if_neg h1, Nat.zero_add]
        by_cases h2 : s + 1 ≤ u
        · by_cases h3 : u < s + 1 + m
          · rw [if_pos ⟨h2, h3⟩, if_pos (by omega)]
          · rw [if_neg (fun hcon => h3 hcon.2), if_neg (fun hcon => by omega)]
        · rw [if_neg (fun hcon => h2 hcon.1), if_neg (fun hcon => by omega)]
    · have hm : m = 0 := by omega
      subst hm
      have htail : ¬((s + 1) % (enabledIdx ps).length ≤ u ∧
          u < (s + 1) % (enabledIdx ps).length + 0) := fun hcon => by omega
      rw [if_neg htail]
      by_cases h1 : (enabledIdx ps).get ⟨s, hs⟩ = (enabledIdx ps).get ⟨u, hu⟩
      · have hsu : s = u := enabledIdx_get_inj ps hs hu h1
        subst hsu
        rw [if_pos h1, if_pos (by omega)]
        omega
      · have hsu : ¬ s = u := fun he => h1 (by subst he; rfl)
        rw [if_neg h1, if_neg (fun hcon => by omega)]

theorem count_blockList_cycle (ps : List ProjectToken) (r : Nat) {s : Nat}
    (hs : s < (enabledIdx ps).length) {u : Nat} (hu : u < (enabledIdx ps).length) :
    (blockList ps r (enabledIdx ps).length ((enabledIdx ps).get ⟨s, hs⟩)).countP
        (fun pr => pr.2 = (enabledIdx ps).get ⟨u, hu⟩) = r := by
  have hsplit : blockList ps r (enabledIdx ps).length ((enabledIdx ps).get ⟨s, hs⟩)
      = blockList ps r ((enabledIdx ps).length - s) ((enabledIdx ps).get ⟨s, hs⟩)
        ++ blockList ps r s
            (nxtIter ps ((enabledIdx ps).length - s) ((enabledIdx ps).get ⟨s, hs⟩)) := by
    rw [← blockList_add]
    congr 1
    omega
  have h0lt : 0 < (enabledIdx ps).length := by omega
  have hback : nxtIter ps ((enabledIdx ps).length - s) ((enabledIdx ps).get ⟨s, hs⟩)
      = (enabledIdx ps).get ⟨0, h0lt⟩ := by
    rw [nxtIter_get ps ((enabledIdx ps).length - s) s hs]
    exact list_get_eq_of_idx_eq _ (Nat.mod_lt _ (by omega)) h0lt
      (by rw [show s + ((enabledIdx ps).length - s) = (enabledIdx ps).length from by omega,
        Nat.mod_self])
  rw [hsplit, hback, List.countP_append]
  rw [count_blockList_nowrap ps r ((enabledIdx ps).length - s) s hs (by omega) u hu]
  rw [count_blockList_nowrap ps r s 0 h0lt (by omega) u hu]
  by_cases hsu : s ≤ u
  · rw [if_pos (by omega), if_neg (fun hcon => by omega)]
    omega
  · rw [if_neg (fun hcon => by omega), if_pos (by omega)]
    omega

theorem count_blockList_cycles (ps : List ProjectToken) (r : Nat) :
    ∀ (k s : Nat) (hs : s < (enabledIdx ps).length) (u : Nat)
      (hu : u < (enabledIdx ps).length),
      (blockList ps r (k * (enabledIdx ps).length)
          ((enabledIdx ps).get ⟨s, hs⟩)).countP
        (fun pr => pr.2 = (enabledIdx ps).get ⟨u, hu⟩) = k * r := by
  intro k
  induction k with
  | zero =>
    intro s hs u hu
    simp [Nat.zero_mul, blockList]
  | succ k ih =>
    intro s hs u hu
    have hsplit : blockList ps r ((k + 1) * (enabledIdx ps).length)
          ((enabledIdx ps).get ⟨s, hs⟩)
        = blockList ps r (enabledIdx ps).length ((enabledIdx ps).get ⟨s, hs⟩)
          ++ blockList ps r (k * (enabledIdx ps).length)
              (nxtIter ps (enabledIdx ps).length ((enabledIdx ps).get ⟨s, hs⟩)) := by
      rw [← blockList_add]
      congr 1
      ring
    have hback : nxtIter ps (enabledIdx ps).length ((enabledIdx ps).get ⟨s, hs⟩)
        = (enabledIdx ps).get ⟨s, hs⟩ := by
      rw [nxtIter_get ps (enabledIdx ps).length s hs]
      exact list_get_eq_of_idx_eq _ (Nat.mod_lt _ (by omega)) hs
        (by rw [Nat.add_mod_right, Nat.mod_eq_of_lt hs])
    rw [hsplit, hback, List.countP_append,
      count_blockList_cycle ps r hs hu, ih s hs u hu]
    ring

theorem length_filter_map_aux {α β : Type} (f : α → β) (q : β → Bool) :
    ∀ l : List α, ((l.map f).filter q).length = (l.filter (fun a => q (f a))).length := by
  intro l
  induction l with
  | nil => rfl
  | cons a rest ih =>
    by_cases h : q (f a) <;> simp [List.map_cons, List.filter_cons, h, ih]

theorem enabled_count_eq : ∀ ps : List ProjectToken,
    (ps.filter (fun p => p.enabled)).length = (enabledIdx ps).length
  | [] => rfl
  | p :: rest => by
    have hsucc : ∀ i ∈ List.range rest.length,
        (fun i => enabledAt (p :: rest) (Nat.succ i)) i
          = (fun i => enabledAt rest i) i := fun i _ => by
      simp [enabledAt]
    have hfold : (List.range rest.length).filter (fun i => enabledAt rest i)
        = enabledIdx rest := rfl
    have key : (enabledIdx (p :: rest)).length
        = (if p.enabled = true then 1 else 0) + (enabledIdx rest).length := by
      rw [enabledIdx, List.length_cons, List.range_succ_eq_map, List.filter_cons]
      have h0 : enabledAt (p :: rest) 0 = p.enabled := by simp [enabledAt]
      by_cases hp : p.enabled = true
      · rw [h0, hp, if_pos rfl, List.length_cons,
          length_filter_map_aux Nat.succ _ (List.range rest.length),
          List.filter_congr hsucc, hfold, if_pos rfl]
        omega
      · have hp2 : p.enabled = false := by
          revert hp
          cases p.enabled <;> simp
        rw [h0, hp2, if_neg (by simp),
          length_filter_map_aux Nat.succ _ (List.range rest.length),
          List.filter_congr hsucc, hfold, if_neg (by simp [hp2])]
        omega
    rw [List.filter_cons, key]
    by_cases hp : p.enabled = true
    · rw [hp, if_pos rfl, List.length_cons, if_pos rfl, enabled_count_eq rest]
      omega
    · have hp2 : p.enabled = false := by
        revert hp
        cases p.enabled <;> simp
      rw [hp2, if_neg (by simp), if_neg (by simp [hp2]), enabled_count_eq rest]
      omega

/-- C5: round-robin fairness of `get_next_project`.  Starting with the cursor
on an enabled project and a zero usage counter, over
`k * rotationCount * |enabled|` consecutive calls every selected project is the
enabled project under the returned cursor (so a disabled project is never
returned), and each enabled slot is selected exactly `k * rotationCount`
times. -/
theorem round_robin_fairness (ps : List ProjectToken) (r k s0 : Nat)
    (hr : 0 < r) (hs0 : enabledAt ps s0 = true) :
    (∀ pr ∈ (pickRun r ⟨ps, s0, 0⟩
        (k * r * (ps.filter (fun p => p.enabled)).length)).1,
      ps[pr.2]? = some pr.1 ∧ pr.1.enabled = true) ∧
    (∀ j, j < ps.length → enabledAt ps j = true →
      ((pickRun r ⟨ps, s0, 0⟩
          (k * r * (ps.filter (fun p => p.enabled)).length)).1.countP
        (fun pr => pr.2 = j)) = k * r) := by
  have hs0lt : s0 < ps.length := enabledAt_lt hs0
  obtain ⟨⟨s, hsn⟩, hgs⟩ := List.get_of_mem (mem_enabledIdx.mpr ⟨hs0lt, hs0⟩)
  have harg : k * r * (ps.filter (fun p => p.enabled)).length
      = (k * (enabledIdx ps).length) * r := by
    rw [enabled_count_eq]
    ring
  rw [harg, pickRun_blocks r hr (k * (enabledIdx ps).length) s0 hs0lt hs0]
  constructor
  · exact blockList_mem ps r _ s0 hs0lt hs0
  · intro j hj hjen
    obtain ⟨⟨u, hun⟩, hgu⟩ := List.get_of_mem (mem_enabledIdx.mpr ⟨hj, hjen⟩)
    rw [← hgs, ← hgu]
    exact count_blockList_cycles ps r k s hsn u hun

/-- Pool used by the fairness witness: three projects, the middle one
disabled. -/
def c5Pool : List ProjectToken :=
  [⟨"a", "ra", none, none, true, none⟩,
   ⟨"b", "rb", none, none, false, none⟩,
   ⟨"c", "rc", none, none, true, none⟩]

theorem round_robin_fairness_witness :
    (∀ pr ∈ (pickRun 2 ⟨c5Pool, 0, 0⟩
        (2 * 2 * (c5Pool.filter (fun p => p.enabled)).length)).1,
      c5Pool[pr.2]? = some pr.1 ∧ pr.1.enabled = true) ∧
    (∀ j, j < c5Pool.length → enabledAt c5Pool j = true →
      ((pickRun 2 ⟨c5Pool, 0, 0⟩
          (2 * 2 * (c5Pool.filter (fun p => p.enabled)).length)).1.countP
        (fun pr => pr.2 = j)) = 2 * 2) :=
  round_robin_fairness c5Pool 2 2 0 (by decide) (by rfl)
